import Mathlib

/-!
# gogif: colour mappers and frame renderers

A shallow embedding of `gogif.go`, the terminal GIF player.

* Go `int` values that only bound loops or index slices are natural numbers; a
  negative extent would run no loop iteration, exactly like the extent `0`.
* `uint8` arithmetic is written with an explicit `% 256`.
* A Go run-time panic (slice index out of range) is an `Except.error` carrying a
  `Fault` that says which slice was indexed and with which index.
* The termbox back buffer is passed explicitly: `Termbox` holds what
  `termbox.Size()` and `termbox.CellBuffer()` return.
-/

namespace Gogif

/-! ## Colours (Go standard library `image/color`) -/

/-- Go `color.Color`, given by the four `uint32` values its `RGBA()` method
returns (alpha-premultiplied, each in `[0, 0xffff]` for a valid colour). -/
structure Color where
  r : Nat
  g : Nat
  b : Nat
  a : Nat
  deriving DecidableEq

/-- Go `color.RGBA`: four `uint8` channels. -/
structure RGBA where
  R : Nat
  G : Nat
  B : Nat
  A : Nat
  deriving DecidableEq

/-- Go `color.Gray`: one `uint8` luma channel. -/
structure Gray where
  Y : Nat
  deriving DecidableEq

/-- The `RGBA()` method of `color.RGBA{R, G, B, A}`: each channel `v` becomes
`v | v << 8`, which is `v * 0x101` for an 8-bit `v`. -/
def Color.ofRGBA (c : RGBA) : Color :=
  ⟨c.R % 256 * 257, c.G % 256 * 257, c.B % 256 * 257, c.A % 256 * 257⟩

/-- The `RGBA()` method of `color.RGBA64{R, G, B, A}`: the 16-bit channels
themselves. -/
def Color.ofRGBA64 (R G B A : Nat) : Color :=
  ⟨R % 65536, G % 65536, B % 65536, A % 65536⟩

/-- Go `color.RGBAModel.Convert(c).(color.RGBA)`:
`RGBA{uint8(r >> 8), uint8(g >> 8), uint8(b >> 8), uint8(a >> 8)}`.
For a `c` that already is a `color.RGBA` the library returns `c` itself, which
is the same value (`RGBAModel.Convert_ofRGBA`). -/
def RGBAModel.Convert (c : Color) : RGBA :=
  ⟨(c.r >>> 8) % 256, (c.g >>> 8) % 256, (c.b >>> 8) % 256, (c.a >>> 8) % 256⟩

/-- Go `color.GrayModel.Convert(c).(color.Gray)`:
`y := (19595*r + 38470*g + 7471*b + 1<<15) >> 24` in `uint32` arithmetic, then
`Gray{uint8(y)}`. For a `c` that already is a `color.Gray{Y}` the library
returns `c` itself; its `RGBA()` values are all `Y * 0x101`, for which the
formula gives `Y` as well. -/
def GrayModel.Convert (c : Color) : Gray :=
  ⟨(((19595 * c.r + 38470 * c.g + 7471 * c.b + 32768) % 4294967296) >>> 24) % 256⟩

/-! ## Attribute tables -/

/-- Source `type AttribInfo struct { attr termbox.Attribute; trans bool }`. -/
structure AttribInfo where
  attr : Nat
  trans : Bool
  deriving DecidableEq

/-- Source `type AttribTable [256]AttribInfo`: a fixed array, indexed here by a `uint8`. -/
abbrev AttribTable := Fin 256 → AttribInfo

/-- Source `type ColourMapFunc func(color.Color) AttribInfo`. -/
abbrev ColourMapFunc := Color → AttribInfo

/-- Source `CMapMono`: the attribute is `g.Y/11 + 1` computed in `uint8`. -/
def CMapMono (c : Color) : AttribInfo :=
  let g := GrayModel.Convert c
  let rgb := RGBAModel.Convert c
  { attr := (g.Y / 11 + 1) % 256
    trans := rgb.A == 0 }

/-- Source `CMapRGB`: `i` is an `int` expression truncated to `uint8`, and `i + 17` is a
`uint8` addition. -/
def CMapRGB (c : Color) : AttribInfo :=
  let rgb := RGBAModel.Convert c
  let r := rgb.R
  let g := rgb.G
  let b := rgb.B
  let i := ((r * 6 / 256) * 36 + (g * 6 / 256) * 6 + (b * 6 / 256)) % 256
  { attr := (i + 17) % 256
    trans := rgb.A == 0 }

/-! ## Frames, the terminal grid, faults -/

/-- The fields of Go `image.Paletted` the program reads. `Pix` is a `[]uint8`;
`Dx` and `Dy` are the values of `Rect.Dx()` and `Rect.Dy()`. -/
structure Paletted where
  Pix : List (Fin 256)
  Stride : Nat
  Dx : Nat
  Dy : Nat
  Palette : List Color

/-- Go `gif.GIF`: the frame sequence. -/
structure GIF where
  Image : List Paletted

/-- Termbox `termbox.Cell`: a glyph (rune) and two attributes. -/
structure Cell where
  Ch : Nat
  Fg : Nat
  Bg : Nat
  deriving DecidableEq

/-- The termbox state the renderers use: `termbox.Size()` is
`(width, height)` and `termbox.CellBuffer()` is `cells`. -/
structure Termbox where
  width : Nat
  height : Nat
  cells : List Cell
  deriving DecidableEq

/-- A run-time panic: which slice was indexed out of range, and the index. -/
inductive Fault where
  | image (i : Nat)
  | pix (i : Nat)
  | attribs (i : Nat)
  | cell (i : Nat)
  | palette (i : Nat)
  | table (i : Nat)
  deriving DecidableEq

/-- Go slice indexing `xs[i]`: the element, or a panic. -/
def index {α : Type} (xs : List α) (i : Nat) (fault : Nat → Fault) : Except Fault α :=
  match xs[i]? with
  | some v => .ok v
  | none => .error (fault i)

/-- The rune `'▄'` (U+2584, lower half block). -/
def lowerHalfBlock : Nat := 0x2584

/-- Source `func min(a, b int) int`. -/
def min (a b : Nat) : Nat :=
  if a < b then a else b

/-! ## The standard renderer -/

/-- The body of the inner loop of `renderFrame` at row `y`, column `x`. -/
def renderFrameCell (img : Paletted) (framenum : Nat) (attribs : List AttribTable)
    (twidth y x : Nat) (cells : List Cell) : Except Fault (List Cell) := do
  let lineOffset := img.Stride * y
  let i ← index img.Pix (x + lineOffset) Fault.pix
  let tab ← index attribs framenum Fault.attribs
  let attr := tab i
  if !attr.trans then
    let cell ← index cells (x + y * twidth) Fault.cell
    pure (cells.set (x + y * twidth) { cell with Bg := attr.attr, Fg := attr.attr })
  else
    pure cells

/-- The inner loop of `renderFrame`: `for x := 0; x < width; x++`. -/
def renderFrameRow (img : Paletted) (framenum : Nat) (attribs : List AttribTable)
    (twidth width y : Nat) (cells : List Cell) : Except Fault (List Cell) :=
  (List.range width).foldlM (fun cells x => renderFrameCell img framenum attribs twidth y x cells)
    cells

/-- Source `renderFrame`: paints frame `framenum` of `g` into the cell buffer. -/
def renderFrame (g : GIF) (framenum : Nat) (attribs : List AttribTable) (tb : Termbox) :
    Except Fault Termbox := do
  let twidth := tb.width
  let theight := tb.height
  let img ← index g.Image framenum Fault.image
  let width := min twidth img.Dx
  let height := min theight img.Dy
  let cells ← (List.range height).foldlM
    (fun cells y => renderFrameRow img framenum attribs twidth width y cells) tb.cells
  pure { tb with cells := cells }

/-! ## The high-resolution renderer -/

/-- The body of the inner loop of `renderFrameHiRes` at source row `y`,
column `x`. -/
def renderFrameHiResCell (img : Paletted) (framenum : Nat) (attribs : List AttribTable)
    (twidth y x : Nat) (cells : List Cell) : Except Fault (List Cell) := do
  let lineOffset := img.Stride * y
  let i ← index img.Pix (x + lineOffset) Fault.pix
  let tab ← index attribs framenum Fault.attribs
  let attr := tab i
  let cell ← index cells (x + (y / 2) * twidth) Fault.cell
  let cell := { cell with Ch := lowerHalfBlock }
  let cell :=
    if !attr.trans then
      if y &&& 1 == 0 then { cell with Bg := attr.attr } else { cell with Fg := attr.attr }
    else cell
  pure (cells.set (x + (y / 2) * twidth) cell)

/-- The inner loop of `renderFrameHiRes`: `for x := 0; x < width; x++`. -/
def renderFrameHiResRow (img : Paletted) (framenum : Nat) (attribs : List AttribTable)
    (twidth width y : Nat) (cells : List Cell) : Except Fault (List Cell) :=
  (List.range width).foldlM
    (fun cells x => renderFrameHiResCell img framenum attribs twidth y x cells) cells

/-- Source `renderFrameHiRes`: two source rows per cell row. -/
def renderFrameHiRes (g : GIF) (framenum : Nat) (attribs : List AttribTable) (tb : Termbox) :
    Except Fault Termbox := do
  let twidth := tb.width
  let theight := tb.height
  let img ← index g.Image framenum Fault.image
  let width := min twidth img.Dx
  let height := min theight (img.Dy * 2)
  let cells ← (List.range height).foldlM
    (fun cells y => renderFrameHiResRow img framenum attribs twidth width y cells) tb.cells
  pure { tb with cells := cells }

/-! ## The palette table builder -/

/-- The zero value of `AttribTable` (`var at AttribTable`): every entry has
attribute 0 and is not transparent. -/
def zeroTable : AttribTable := fun _ => ⟨0, false⟩

/-- The body of the inner loop of `mapColours`:
`at[i] = cmap(g.Image[f].Palette[i])`. Storing into the 256-entry array with
`i ≥ 256` is a panic. -/
def mapColoursEntry (g : GIF) (cmap : ColourMapFunc) (f : Nat) (tab : AttribTable) (i : Nat) :
    Except Fault AttribTable := do
  let img ← index g.Image f Fault.image
  let c ← index img.Palette i Fault.palette
  if h : i < 256 then
    pure (Function.update tab ⟨i, h⟩ (cmap c))
  else
    throw (Fault.table i)

/-- The body of the outer loop of `mapColours`: build the table of frame `f`
from the zero table and append it. -/
def mapColoursFrame (g : GIF) (cmap : ColourMapFunc) (attribs : List AttribTable) (f : Nat) :
    Except Fault (List AttribTable) := do
  let img ← index g.Image f Fault.image
  let tab ← (List.range img.Palette.length).foldlM
    (fun tab i => mapColoursEntry g cmap f tab i) zeroTable
  pure (attribs ++ [tab])

/-- Source `mapColours`: one attribute table per frame, in frame order. -/
def mapColours (g : GIF) (cmap : ColourMapFunc) : Except Fault (List AttribTable) :=
  (List.range g.Image.length).foldlM (fun attribs f => mapColoursFrame g cmap attribs f) []

/-! ## The callbacks of `main` -/

/-- Termbox `termbox.OutputMode` and its constants. -/
inductive OutputMode where
  | OutputCurrent
  | OutputNormal
  | Output256
  | Output216
  | OutputGrayscale
  deriving DecidableEq

/-- The error `errors.New("Failed to set output mode")` of `gc.OnInit`. -/
inductive InitError where
  | failedToSetOutputMode
  deriving DecidableEq

/-- The closure `gc.OnInit` of `main`. `SetOutputMode` stands for
`termbox.SetOutputMode`: the mode the terminal reports after the request. -/
def OnInit (SetOutputMode : OutputMode → OutputMode) : Except InitError Unit :=
  let mode := SetOutputMode OutputMode.Output256
  if mode ≠ OutputMode.OutputGrayscale then
    .error InitError.failedToSetOutputMode
  else
    .ok ()

/-- The frame index update of `gc.OnTick`, for `n = len(g.Image)`:
`frameNumber++; if len(g.Image) == frameNumber { frameNumber = 0 }`. The
increment of the Go `int` does not overflow for an index below `2^63 - 1`, in
particular for every index below a slice length. -/
def advanceFrame (n frameNumber : Nat) : Nat :=
  let frameNumber := frameNumber + 1
  if n = frameNumber then 0 else frameNumber

/-- The closure `gc.OnTick` of `main`, on the state it captures and changes:
the frame number and the termbox cell buffer. A panic of `renderFrameHiRes`
ends the call before the frame number is updated. -/
def OnTick (g : GIF) (attribs : List AttribTable) (frameNumber : Nat) (tb : Termbox) :
    Except Fault (Nat × Termbox) := do
  let tb ← renderFrameHiRes g frameNumber attribs tb
  pure (advanceFrame g.Image.length frameNumber, tb)

/-! ## Pure descriptions of one loop iteration

What one iteration does to a cell, as a function of the cell alone; the
theorems below relate the renderers to these. -/

/-- The attribute entry of source pixel `(x, y)`: `attribs[framenum][Pix[x + Stride*y]]`,
when both slices are indexed in range. -/
def pixelInfo (img : Paletted) (framenum : Nat) (attribs : List AttribTable) (x y : Nat) :
    Option AttribInfo :=
  match img.Pix[x + img.Stride * y]?, attribs[framenum]? with
  | some i, some tab => some (tab i)
  | _, _ => none

/-- What `renderFrame` does to the target cell of a pixel with entry `a`. -/
def paintStd (a : AttribInfo) (c : Cell) : Cell :=
  if a.trans then c else { c with Bg := a.attr, Fg := a.attr }

/-- What `renderFrameHiRes` does to the target cell of a pixel of source row `y`
with entry `a`. -/
def paintHiRes (y : Nat) (a : AttribInfo) (c : Cell) : Cell :=
  if a.trans then { c with Ch := lowerHalfBlock }
  else if y % 2 = 0 then { c with Ch := lowerHalfBlock, Bg := a.attr }
  else { c with Ch := lowerHalfBlock, Fg := a.attr }

/-- Apply `paint` with the entry of pixel `(x, y)`, if there is one. -/
def paintWith (paint : AttribInfo → Cell → Cell) (p : Option AttribInfo) (c : Cell) : Cell :=
  match p with
  | some a => paint a c
  | none => c

/-! ## Well-formed frames and sample inputs -/

/-- A well-formed frame: the stride covers the width, the pixel buffer has
`Stride × Dy` entries, the palette has at most 256 colours and every pixel is
an index into the palette. -/
def Paletted.WellFormed (img : Paletted) : Prop :=
  img.Dx ≤ img.Stride ∧ img.Pix.length = img.Stride * img.Dy ∧
    img.Palette.length ≤ 256 ∧ ∀ i ∈ img.Pix, i.val < img.Palette.length

instance (img : Paletted) : Decidable img.WellFormed := by
  unfold Paletted.WellFormed
  infer_instance

/-- Opaque red, opaque blue and a fully transparent colour. -/
def samplePalette : List Color :=
  [Color.ofRGBA ⟨255, 0, 0, 255⟩, Color.ofRGBA ⟨0, 0, 255, 255⟩, Color.ofRGBA ⟨0, 0, 0, 0⟩]

/-- An attribute table for `samplePalette`: entries 0 and 1 are opaque, entry 2
is transparent, the rest of the array is zero. -/
def sampleTable : AttribTable := fun i =>
  if i = 0 then ⟨197, false⟩
  else if i = 1 then ⟨22, false⟩
  else if i = 2 then ⟨17, true⟩
  else ⟨0, false⟩

/-- A frame 3 pixels wide and 2 pixels high. -/
def sampleFrame : Paletted := ⟨[0, 2, 1, 2, 1, 0], 3, 3, 2, samplePalette⟩

/-- A frame 1 pixel wide and 4 pixels high, all opaque. -/
def tallFrame : Paletted := ⟨[0, 1, 0, 1], 1, 1, 4, samplePalette⟩

/-- A frame of a single opaque pixel. -/
def dotFrame : Paletted := ⟨[0], 1, 1, 1, samplePalette⟩

/-- A frame 1 pixel wide and 2 pixels high, both pixels transparent. -/
def clearFrame : Paletted := ⟨[2, 2], 1, 1, 2, samplePalette⟩

/-- A `w × h` grid of blank cells (a space, default colours). -/
def blankGrid (w h : Nat) : Termbox := ⟨w, h, List.replicate (w * h) ⟨32, 0, 0⟩⟩

/-- The scenario frame: 2 × 2 pixels, stride 2, palette opaque red and a fully
transparent colour, pixel buffer `[0, 1, 1, 0]`. -/
def scenarioFrame : Paletted :=
  ⟨[0, 1, 1, 0], 2, 2, 2, [Color.ofRGBA ⟨255, 0, 0, 255⟩, Color.ofRGBA ⟨0, 0, 0, 0⟩]⟩

/-- The scenario animation: the single frame `scenarioFrame`. -/
def scenarioGIF : GIF := ⟨[scenarioFrame]⟩

/-! ## Colour mappers -/

theorem channel_roundtrip (v : Nat) (h : v < 256) : v % 256 * 257 / 256 % 256 = v := by
  rw [Nat.mod_eq_of_lt h]
  have h1 : v * 257 / 256 = v := by omega
  rw [h1, Nat.mod_eq_of_lt h]

/-- The library shortcut for a `color.RGBA` agrees with the generic path:
converting the `RGBA()` values of an 8-bit colour gives the colour back. -/
theorem RGBAModel.Convert_ofRGBA (c : RGBA) (hR : c.R < 256) (hG : c.G < 256) (hB : c.B < 256)
    (hA : c.A < 256) : RGBAModel.Convert (Color.ofRGBA c) = c := by
  obtain ⟨R, G, B, A⟩ := c
  simp only [RGBAModel.Convert, Color.ofRGBA, Nat.shiftRight_eq_div_pow, Nat.reducePow,
    RGBA.mk.injEq] at *
  exact ⟨channel_roundtrip R hR, channel_roundtrip G hG, channel_roundtrip B hB,
    channel_roundtrip A hA⟩

theorem RGBAModel.Convert_R_lt (c : Color) : (RGBAModel.Convert c).R < 256 :=
  Nat.mod_lt _ (by decide)

theorem RGBAModel.Convert_G_lt (c : Color) : (RGBAModel.Convert c).G < 256 :=
  Nat.mod_lt _ (by decide)

theorem RGBAModel.Convert_B_lt (c : Color) : (RGBAModel.Convert c).B < 256 :=
  Nat.mod_lt _ (by decide)

theorem GrayModel.Convert_Y_lt (c : Color) : (GrayModel.Convert c).Y < 256 :=
  Nat.mod_lt _ (by decide)

theorem bucket_le (v : Nat) (h : v < 256) : v * 6 / 256 ≤ 5 := by
  omega

theorem CMapRGB_attr (c : Color) :
    (CMapRGB c).attr = 17 + (RGBAModel.Convert c).R * 6 / 256 * 36
      + (RGBAModel.Convert c).G * 6 / 256 * 6 + (RGBAModel.Convert c).B * 6 / 256 := by
  have hR := bucket_le _ (RGBAModel.Convert_R_lt c)
  have hG := bucket_le _ (RGBAModel.Convert_G_lt c)
  have hB := bucket_le _ (RGBAModel.Convert_B_lt c)
  simp only [CMapRGB]
  generalize (RGBAModel.Convert c).R * 6 / 256 = br at *
  generalize (RGBAModel.Convert c).G * 6 / 256 = bg at *
  generalize (RGBAModel.Convert c).B * 6 / 256 = bb at *
  omega

theorem CMapMono_attr (c : Color) : (CMapMono c).attr = (GrayModel.Convert c).Y / 11 + 1 := by
  have hY := GrayModel.Convert_Y_lt c
  simp only [CMapMono]
  omega

/-- C8. For every colour, with `R`, `G`, `B` the channels of its 8-bit RGBA
conversion: the channels are below 256, `CMapRGB` returns the attribute
`17 + (R*6/256)*36 + (G*6/256)*6 + B*6/256` with no 8-bit wrap-around, each
bucket is at most 5, the attribute lies in `[17, 232]`, and a colour with the
same bucket triple gets the same attribute. -/
theorem CMapRGB_value (c : Color) :
    ((RGBAModel.Convert c).R < 256 ∧ (RGBAModel.Convert c).G < 256 ∧
      (RGBAModel.Convert c).B < 256) ∧
    (CMapRGB c).attr = 17 + (RGBAModel.Convert c).R * 6 / 256 * 36
      + (RGBAModel.Convert c).G * 6 / 256 * 6 + (RGBAModel.Convert c).B * 6 / 256 ∧
    ((RGBAModel.Convert c).R * 6 / 256 ≤ 5 ∧ (RGBAModel.Convert c).G * 6 / 256 ≤ 5 ∧
      (RGBAModel.Convert c).B * 6 / 256 ≤ 5) ∧
    (17 ≤ (CMapRGB c).attr ∧ (CMapRGB c).attr ≤ 232) ∧
    ∀ c2 : Color,
      (RGBAModel.Convert c2).R * 6 / 256 = (RGBAModel.Convert c).R * 6 / 256 →
      (RGBAModel.Convert c2).G * 6 / 256 = (RGBAModel.Convert c).G * 6 / 256 →
      (RGBAModel.Convert c2).B * 6 / 256 = (RGBAModel.Convert c).B * 6 / 256 →
      (CMapRGB c2).attr = (CMapRGB c).attr := by
  have hR := RGBAModel.Convert_R_lt c
  have hG := RGBAModel.Convert_G_lt c
  have hB := RGBAModel.Convert_B_lt c
  have hattr := CMapRGB_attr c
  have bR := bucket_le _ hR
  have bG := bucket_le _ hG
  have bB := bucket_le _ hB
  refine ⟨⟨hR, hG, hB⟩, hattr, ⟨bR, bG, bB⟩, ?_, ?_⟩
  · rw [hattr]
    generalize (RGBAModel.Convert c).R * 6 / 256 = br at *
    generalize (RGBAModel.Convert c).G * 6 / 256 = bg at *
    generalize (RGBAModel.Convert c).B * 6 / 256 = bb at *
    omega
  · intro c2 h1 h2 h3
    rw [CMapRGB_attr c2, hattr, h1, h2, h3]

/-- C9. For every colour, with `Y` the luma of its grey conversion: `Y` is in
`[0, 255]`, `CMapMono` returns the attribute `Y/11 + 1`, the attribute lies in
`[1, 24]`, and the attribute is monotonically non-decreasing in the luma. -/
theorem CMapMono_value (c : Color) :
    (GrayModel.Convert c).Y ≤ 255 ∧
    (CMapMono c).attr = (GrayModel.Convert c).Y / 11 + 1 ∧
    (1 ≤ (CMapMono c).attr ∧ (CMapMono c).attr ≤ 24) ∧
    ∀ c2 : Color, (GrayModel.Convert c).Y ≤ (GrayModel.Convert c2).Y →
      (CMapMono c).attr ≤ (CMapMono c2).attr := by
  have hY := GrayModel.Convert_Y_lt c
  have hattr := CMapMono_attr c
  refine ⟨by omega, hattr, ⟨by omega, by omega⟩, ?_⟩
  intro c2 hle
  rw [hattr, CMapMono_attr c2]
  omega

/-- C10. For every colour whose alpha is 0, whatever its other channels, both
`CMapMono` and `CMapRGB` report `trans = true`. -/
theorem trans_of_alpha_zero (c : Color) (h : c.a = 0) :
    (CMapMono c).trans = true ∧ (CMapRGB c).trans = true := by
  simp [CMapMono, CMapRGB, RGBAModel.Convert, h]

theorem trans_of_alpha_zero_witness :
    (Color.mk 65535 300 7 0).a = 0 ∧
    (CMapMono (Color.mk 65535 300 7 0)).trans = true ∧
    (CMapRGB (Color.mk 65535 300 7 0)).trans = true :=
  ⟨rfl, trans_of_alpha_zero (Color.mk 65535 300 7 0) rfl⟩

/-! ## Slice indexing and loops -/

theorem min_le_left (a b : Nat) : min a b ≤ a := by
  unfold min
  split <;> omega

theorem min_le_right (a b : Nat) : min a b ≤ b := by
  unfold min
  split <;> omega

theorem lt_min_iff (x a b : Nat) : x < min a b ↔ x < a ∧ x < b := by
  unfold min
  split <;> omega

theorem index_ok {α : Type} (xs : List α) (i : Nat) (fault : Nat → Fault) (v : α) :
    index xs i fault = .ok v ↔ xs[i]? = some v := by
  unfold index
  cases h : xs[i]? <;> simp

theorem index_error {α : Type} (xs : List α) (i : Nat) (fault : Nat → Fault) (e : Fault) :
    index xs i fault = .error e ↔ xs[i]? = none ∧ fault i = e := by
  unfold index
  cases h : xs[i]? <;> simp

/-- A loop over `l` whose every iteration keeps `Inv` or stops with a fault in
`P` does so as a whole. -/
theorem foldlM_invariant {α : Type} (step : List Cell → α → Except Fault (List Cell))
    (Inv : List Cell → Prop) (P : Fault → Prop) :
    ∀ (l : List α) (cells : List Cell),
      (∀ a ∈ l, ∀ cs, Inv cs →
        (∀ cs2, step cs a = .ok cs2 → Inv cs2) ∧ (∀ e, step cs a = .error e → P e)) →
      Inv cells →
      (∀ cs2, l.foldlM step cells = .ok cs2 → Inv cs2) ∧
        (∀ e, l.foldlM step cells = .error e → P e) := by
  intro l
  induction l with
  | nil =>
    intro cells _ hinv
    constructor
    · intro cs2 h
      simp only [List.foldlM_nil, pure, Except.pure, Except.ok.injEq] at h
      exact h ▸ hinv
    · intro e h
      simp [pure, Except.pure] at h
  | cons a l ih =>
    intro cells hstep hinv
    have ha := hstep a (List.mem_cons_self a l) cells hinv
    have hl : ∀ b ∈ l, ∀ cs, Inv cs →
        (∀ cs2, step cs b = .ok cs2 → Inv cs2) ∧ (∀ e, step cs b = .error e → P e) :=
      fun b hb => hstep b (List.mem_cons_of_mem a hb)
    rw [List.foldlM_cons]
    cases hs : step cells a with
    | error e0 =>
      constructor
      · intro cs2 h
        simp [bind, Except.bind] at h
      · intro e h
        simp only [bind, Except.bind, Except.error.injEq] at h
        exact h ▸ ha.2 e0 hs
    | ok mid =>
      simpa [bind, Except.bind] using ih mid hl (ha.1 mid hs)

/-- A loop that returns has returned from every iteration, so whatever a
returning iteration establishes about its own item holds of every item. -/
theorem foldlM_ok_forall {α : Type} (step : List Cell → α → Except Fault (List Cell))
    (Q : α → Prop) (hstep : ∀ a cs cs2, step cs a = .ok cs2 → Q a) :
    ∀ (l : List α) (cells cells2 : List Cell), l.foldlM step cells = .ok cells2 →
      ∀ a ∈ l, Q a := by
  intro l
  induction l with
  | nil => intro _ _ _ a ha; simp at ha
  | cons b l ih =>
    intro cells cells2 h a ha
    rw [List.foldlM_cons] at h
    cases hs : step cells b with
    | error e0 => simp [hs, bind, Except.bind] at h
    | ok mid =>
      simp only [hs, bind, Except.bind] at h
      rcases List.mem_cons.1 ha with rfl | hmem
      · exact hstep _ _ _ hs
      · exact ih mid cells2 h a hmem

/-- A loop whose iterations act on each cell separately (`F a j` on cell `j`)
acts on cell `j` by the composition of those actions. -/
theorem foldlM_pointwise {α : Type} (step : List Cell → α → Except Fault (List Cell))
    (F : α → Nat → Cell → Cell)
    (hstep : ∀ a cs cs2, step cs a = .ok cs2 →
      cs2.length = cs.length ∧ ∀ j, cs2[j]? = (cs[j]?).map (F a j)) :
    ∀ (l : List α) (cells cells2 : List Cell), l.foldlM step cells = .ok cells2 →
      cells2.length = cells.length ∧
      ∀ j, cells2[j]? = (cells[j]?).map (fun c => l.foldl (fun c a => F a j c) c) := by
  intro l
  induction l with
  | nil =>
    intro cells cells2 h
    simp only [List.foldlM_nil, pure, Except.pure, Except.ok.injEq] at h
    subst h
    simp
  | cons b l ih =>
    intro cells cells2 h
    rw [List.foldlM_cons] at h
    cases hs : step cells b with
    | error e0 => simp [hs, bind, Except.bind] at h
    | ok mid =>
      simp only [hs, bind, Except.bind] at h
      obtain ⟨hlen1, hget1⟩ := hstep b cells mid hs
      obtain ⟨hlen2, hget2⟩ := ih mid cells2 h
      refine ⟨hlen2.trans hlen1, fun j => ?_⟩
      rw [hget2 j, hget1 j, Option.map_map]
      rfl

/-! ## One loop iteration -/

theorem getElem?_set_map (cells : List Cell) (i j : Nat) (v : Cell) (f : Cell → Cell)
    (h : cells[i]? = some v) :
    (cells.set i (f v))[j]? = (cells[j]?).map (fun c => if i = j then f c else c) := by
  by_cases hij : i = j
  · subst hij
    have hlt : i < cells.length := by
      by_contra hge
      rw [List.getElem?_eq_none (by omega)] at h
      exact Option.noConfusion h
    rw [List.getElem?_set_self hlt, h]
    simp
  · rw [List.getElem?_set_ne hij]
    cases cells[j]? <;> simp [hij]

theorem getElem?_map_id (cells : List Cell) (j : Nat) (p : Prop) [Decidable p] :
    cells[j]? = (cells[j]?).map (fun c => if p then c else c) := by
  cases cells[j]? <;> simp

theorem renderFrameCell_ok (img : Paletted) (fn : Nat) (attribs : List AttribTable)
    (W y x : Nat) (cells cells2 : List Cell)
    (h : renderFrameCell img fn attribs W y x cells = .ok cells2) :
    ∃ a, pixelInfo img fn attribs x y = some a ∧ cells2.length = cells.length ∧
      ∀ j, cells2[j]? = (cells[j]?).map (fun c => if x + y * W = j then paintStd a c else c) := by
  unfold renderFrameCell at h
  unfold pixelInfo
  cases hp : img.Pix[x + img.Stride * y]? with
  | none => simp [index, hp, bind, Except.bind] at h
  | some i =>
    cases ht : attribs[fn]? with
    | none => simp [index, hp, ht, bind, Except.bind] at h
    | some tab =>
      refine ⟨tab i, rfl, ?_⟩
      simp only [index, hp, ht, bind, Except.bind, pure, Except.pure] at h
      cases htr : (tab i).trans with
      | true =>
        simp only [htr, Bool.not_true, Bool.false_eq_true, if_false, Except.ok.injEq] at h
        subst h
        refine ⟨rfl, fun j => ?_⟩
        simp only [paintStd, htr, if_true]
        exact getElem?_map_id cells j _
      | false =>
        simp only [htr, Bool.not_false, if_true] at h
        cases hc : cells[x + y * W]? with
        | none => simp [hc] at h
        | some v =>
          simp only [hc, Except.ok.injEq] at h
          subst h
          refine ⟨List.length_set _ _ _, fun j => ?_⟩
          have := getElem?_set_map cells (x + y * W) j v (paintStd (tab i)) hc
          simpa [paintStd, htr] using this

theorem renderFrameHiResCell_ok (img : Paletted) (fn : Nat) (attribs : List AttribTable)
    (W y x : Nat) (cells cells2 : List Cell)
    (h : renderFrameHiResCell img fn attribs W y x cells = .ok cells2) :
    ∃ a, pixelInfo img fn attribs x y = some a ∧ cells2.length = cells.length ∧
      ∀ j, cells2[j]? =
        (cells[j]?).map (fun c => if x + y / 2 * W = j then paintHiRes y a c else c) := by
  unfold renderFrameHiResCell at h
  unfold pixelInfo
  cases hp : img.Pix[x + img.Stride * y]? with
  | none => simp [index, hp, bind, Except.bind] at h
  | some i =>
    cases ht : attribs[fn]? with
    | none => simp [index, hp, ht, bind, Except.bind] at h
    | some tab =>
      refine ⟨tab i, rfl, ?_⟩
      simp only [index, hp, ht, bind, Except.bind, pure, Except.pure] at h
      cases hc : cells[x + y / 2 * W]? with
      | none => simp [hc] at h
      | some v =>
        simp only [hc, Except.ok.injEq] at h
        subst h
        refine ⟨List.length_set _ _ _, fun j => ?_⟩
        have := getElem?_set_map cells (x + y / 2 * W) j v (paintHiRes y (tab i)) hc
        rw [← this]
        congr 2
        unfold paintHiRes
        cases htr : (tab i).trans
        · rcases Nat.mod_two_eq_zero_or_one y with h0 | h1
          · simp [Nat.and_one_is_mod, h0]
          · simp [Nat.and_one_is_mod, h1]
        · simp

/-! ## Cell addresses and the composed action on one cell -/

theorem cell_index_lt (W H x y : Nat) (hx : x < W) (hy : y < H) : x + y * W < W * H := by
  have h1 : (y + 1) * W ≤ H * W := Nat.mul_le_mul_right W hy
  rw [Nat.succ_mul, Nat.mul_comm H W] at h1
  omega

theorem cell_index_inj (W x y x0 r : Nat) (hx : x < W) (hx0 : x0 < W) :
    x + y * W = x0 + r * W ↔ x = x0 ∧ y = r := by
  constructor
  · intro h
    have hyr : y = r := by
      rcases Nat.lt_trichotomy y r with hlt | heq | hgt
      · have h1 : (y + 1) * W ≤ r * W := Nat.mul_le_mul_right W hlt
        rw [Nat.succ_mul] at h1
        omega
      · exact heq
      · have h1 : (r + 1) * W ≤ y * W := Nat.mul_le_mul_right W hgt
        rw [Nat.succ_mul] at h1
        omega
    subst hyr
    exact ⟨by omega, rfl⟩
  · rintro ⟨rfl, rfl⟩
    rfl

/-- One row of iterations, seen from the cell at `(x0, r)`: only column `x0` of
the target row `ρ` acts on it. -/
theorem foldl_row (W ρ x0 r : Nat) (f : Nat → Cell → Cell) (hx0 : x0 < W) :
    ∀ (n : Nat), n ≤ W → ∀ c : Cell,
      (List.range n).foldl (fun c x => if x + ρ * W = x0 + r * W then f x c else c) c
        = if r = ρ ∧ x0 < n then f x0 c else c := by
  intro n
  induction n with
  | zero => intro _ c; simp
  | succ n ih =>
    intro hn c
    rw [List.range_succ, List.foldl_append, ih (by omega) c]
    simp only [List.foldl_cons, List.foldl_nil]
    by_cases hhit : n + ρ * W = x0 + r * W
    · obtain ⟨hx, hr⟩ := (cell_index_inj W n ρ x0 r (by omega) hx0).1 hhit
      subst hx hr
      simp
    · have hne : ¬ (n = x0 ∧ ρ = r) := fun h =>
        hhit ((cell_index_inj W n ρ x0 r (by omega) hx0).2 h)
      rw [if_neg hhit]
      by_cases h1 : r = ρ ∧ x0 < n
      · rw [if_pos h1, if_pos ⟨h1.1, by omega⟩]
      · rw [if_neg h1, if_neg]
        rintro ⟨h2, h3⟩
        have : x0 ≠ n := fun h => hne ⟨h.symm, h2.symm⟩
        exact h1 ⟨h2, by omega⟩

/-- All rows of the standard renderer, seen from the cell at `(x0, r)`. -/
theorem foldl_rows_std (w x0 r : Nat) (f : Nat → Cell → Cell) :
    ∀ (m : Nat) (c : Cell),
      (List.range m).foldl (fun c y => if r = y ∧ x0 < w then f y c else c) c
        = if r < m ∧ x0 < w then f r c else c := by
  intro m
  induction m with
  | zero => intro c; simp
  | succ m ih =>
    intro c
    rw [List.range_succ, List.foldl_append, ih c]
    simp only [List.foldl_cons, List.foldl_nil]
    by_cases hr : r = m
    · subst hr
      by_cases hw : x0 < w <;> simp [hw]
    · by_cases h1 : r < m ∧ x0 < w
      · rw [if_neg (fun h => hr h.1), if_pos h1, if_pos ⟨by omega, h1.2⟩]
      · rw [if_neg (fun h => hr h.1), if_neg h1, if_neg]
        rintro ⟨h2, h3⟩
        exact h1 ⟨by omega, h3⟩

/-- All source rows of the high-resolution renderer, seen from the cell at
`(x0, r)`: source row `2r` acts first, then source row `2r + 1`. -/
theorem foldl_rows_hiRes (w x0 r : Nat) (f : Nat → Cell → Cell) :
    ∀ (m : Nat) (c : Cell),
      (List.range m).foldl (fun c y => if r = y / 2 ∧ x0 < w then f y c else c) c
        = if 2 * r + 1 < m ∧ x0 < w then f (2 * r + 1) (f (2 * r) c)
          else if 2 * r < m ∧ x0 < w then f (2 * r) c else c := by
  intro m
  induction m with
  | zero => intro c; simp
  | succ m ih =>
    intro c
    rw [List.range_succ, List.foldl_append, ih c]
    simp only [List.foldl_cons, List.foldl_nil]
    by_cases hw : x0 < w
    · simp only [hw, and_true]
      by_cases hr : r = m / 2
      · rw [if_pos hr]
        rcases Nat.mod_two_eq_zero_or_one m with h0 | h1
        · have hm : m = 2 * r := by omega
          subst hm
          simp
        · have hm : m = 2 * r + 1 := by omega
          subst hm
          simp
      · rw [if_neg hr]
        have e1 : 2 * r + 1 < m + 1 ↔ 2 * r + 1 < m := by omega
        have e2 : 2 * r < m + 1 ↔ 2 * r < m := by omega
        simp only [e1, e2]
    · simp [hw]


/-! ## What a returning run has done to each cell -/

theorem renderFrameRow_ok (img : Paletted) (fn : Nat) (attribs : List AttribTable)
    (W width y : Nat) (cells cells2 : List Cell)
    (h : renderFrameRow img fn attribs W width y cells = .ok cells2) :
    cells2.length = cells.length ∧
    (∀ x, x < width → ∃ a, pixelInfo img fn attribs x y = some a) ∧
    ∀ j, cells2[j]? = (cells[j]?).map (fun c => (List.range width).foldl
      (fun c x =>
        if x + y * W = j then paintWith paintStd (pixelInfo img fn attribs x y) c else c) c) := by
  unfold renderFrameRow at h
  have hread := foldlM_ok_forall
    (fun cells x => renderFrameCell img fn attribs W y x cells)
    (fun x => ∃ a, pixelInfo img fn attribs x y = some a)
    (fun x cs cs2 hs => by
      obtain ⟨a, ha, _⟩ := renderFrameCell_ok img fn attribs W y x cs cs2 hs
      exact ⟨a, ha⟩)
    (List.range width) cells cells2 h
  have hpt := foldlM_pointwise
    (fun cells x => renderFrameCell img fn attribs W y x cells)
    (fun x j c =>
      if x + y * W = j then paintWith paintStd (pixelInfo img fn attribs x y) c else c)
    (fun x cs cs2 hs => by
      obtain ⟨a, ha, hlen, hget⟩ := renderFrameCell_ok img fn attribs W y x cs cs2 hs
      refine ⟨hlen, fun j => ?_⟩
      rw [hget j]
      simp only [ha, paintWith])
    (List.range width) cells cells2 h
  exact ⟨hpt.1, fun x hx => hread x (List.mem_range.2 hx), hpt.2⟩

theorem renderFrameHiResRow_ok (img : Paletted) (fn : Nat) (attribs : List AttribTable)
    (W width y : Nat) (cells cells2 : List Cell)
    (h : renderFrameHiResRow img fn attribs W width y cells = .ok cells2) :
    cells2.length = cells.length ∧
    (∀ x, x < width → ∃ a, pixelInfo img fn attribs x y = some a) ∧
    ∀ j, cells2[j]? = (cells[j]?).map (fun c => (List.range width).foldl
      (fun c x =>
        if x + y / 2 * W = j then paintWith (paintHiRes y) (pixelInfo img fn attribs x y) c
        else c) c) := by
  unfold renderFrameHiResRow at h
  have hread := foldlM_ok_forall
    (fun cells x => renderFrameHiResCell img fn attribs W y x cells)
    (fun x => ∃ a, pixelInfo img fn attribs x y = some a)
    (fun x cs cs2 hs => by
      obtain ⟨a, ha, _⟩ := renderFrameHiResCell_ok img fn attribs W y x cs cs2 hs
      exact ⟨a, ha⟩)
    (List.range width) cells cells2 h
  have hpt := foldlM_pointwise
    (fun cells x => renderFrameHiResCell img fn attribs W y x cells)
    (fun x j c =>
      if x + y / 2 * W = j then paintWith (paintHiRes y) (pixelInfo img fn attribs x y) c
      else c)
    (fun x cs cs2 hs => by
      obtain ⟨a, ha, hlen, hget⟩ := renderFrameHiResCell_ok img fn attribs W y x cs cs2 hs
      refine ⟨hlen, fun j => ?_⟩
      rw [hget j]
      simp only [ha, paintWith])
    (List.range width) cells cells2 h
  exact ⟨hpt.1, fun x hx => hread x (List.mem_range.2 hx), hpt.2⟩

/-- The loops of `renderFrame`, unfolded from a returning call. -/
theorem renderFrame_loops (g : GIF) (fn : Nat) (attribs : List AttribTable) (tb tb2 : Termbox)
    (img : Paletted) (hg : g.Image[fn]? = some img)
    (h : renderFrame g fn attribs tb = .ok tb2) :
    tb2.width = tb.width ∧ tb2.height = tb.height ∧
    (List.range (min tb.height img.Dy)).foldlM
      (fun cells y =>
        renderFrameRow img fn attribs tb.width (min tb.width img.Dx) y cells) tb.cells
      = .ok tb2.cells := by
  unfold renderFrame at h
  simp only [index, hg, bind, Except.bind, pure, Except.pure] at h
  cases hl : (List.range (min tb.height img.Dy)).foldlM
      (fun cells y =>
        renderFrameRow img fn attribs tb.width (min tb.width img.Dx) y cells) tb.cells with
  | error e => simp [hl] at h
  | ok cs =>
    simp only [hl, Except.ok.injEq] at h
    subst h
    exact ⟨rfl, rfl, rfl⟩

/-- A returning `renderFrame` has read every pixel of the painted rectangle in
range and has applied `paintStd` to exactly the cells of that rectangle. -/
theorem renderFrame_ok (g : GIF) (fn : Nat) (attribs : List AttribTable) (tb tb2 : Termbox)
    (img : Paletted) (hg : g.Image[fn]? = some img)
    (h : renderFrame g fn attribs tb = .ok tb2) :
    tb2.width = tb.width ∧ tb2.height = tb.height ∧ tb2.cells.length = tb.cells.length ∧
    (∀ x y, x < min tb.width img.Dx → y < min tb.height img.Dy →
      ∃ a, pixelInfo img fn attribs x y = some a) ∧
    ∀ x0 r, x0 < tb.width →
      tb2.cells[x0 + r * tb.width]? = (tb.cells[x0 + r * tb.width]?).map (fun c =>
        if r < min tb.height img.Dy ∧ x0 < min tb.width img.Dx
        then paintWith paintStd (pixelInfo img fn attribs x0 r) c else c) := by
  obtain ⟨hw, hh, hl⟩ := renderFrame_loops g fn attribs tb tb2 img hg h
  have hread := foldlM_ok_forall
    (fun cells y => renderFrameRow img fn attribs tb.width (min tb.width img.Dx) y cells)
    (fun y => ∀ x, x < min tb.width img.Dx → ∃ a, pixelInfo img fn attribs x y = some a)
    (fun y cs cs2 hs => (renderFrameRow_ok img fn attribs _ _ y cs cs2 hs).2.1)
    _ _ _ hl
  have hpt := foldlM_pointwise
    (fun cells y => renderFrameRow img fn attribs tb.width (min tb.width img.Dx) y cells)
    (fun y j c => (List.range (min tb.width img.Dx)).foldl
      (fun c x =>
        if x + y * tb.width = j then paintWith paintStd (pixelInfo img fn attribs x y) c
        else c) c)
    (fun y cs cs2 hs =>
      ⟨(renderFrameRow_ok img fn attribs _ _ y cs cs2 hs).1,
       (renderFrameRow_ok img fn attribs _ _ y cs cs2 hs).2.2⟩)
    _ _ _ hl
  refine ⟨hw, hh, hpt.1, fun x y hx hy => hread y (List.mem_range.2 hy) x hx, ?_⟩
  intro x0 r hx0
  rw [hpt.2]
  congr 1
  funext c
  have hrow : (fun (c : Cell) (y : Nat) => (List.range (min tb.width img.Dx)).foldl
      (fun c x =>
        if x + y * tb.width = x0 + r * tb.width
        then paintWith paintStd (pixelInfo img fn attribs x y) c else c) c)
      = (fun c y => if r = y ∧ x0 < min tb.width img.Dx
          then paintWith paintStd (pixelInfo img fn attribs x0 y) c else c) := by
    funext c y
    exact foldl_row tb.width y x0 r
      (fun x => paintWith paintStd (pixelInfo img fn attribs x y)) hx0 _
      (min_le_left _ _) c
  rw [hrow]
  exact foldl_rows_std (min tb.width img.Dx) x0 r
    (fun y => paintWith paintStd (pixelInfo img fn attribs x0 y)) _ c


/-- The loops of `renderFrameHiRes`, unfolded from a returning call. -/
theorem renderFrameHiRes_loops (g : GIF) (fn : Nat) (attribs : List AttribTable)
    (tb tb2 : Termbox) (img : Paletted) (hg : g.Image[fn]? = some img)
    (h : renderFrameHiRes g fn attribs tb = .ok tb2) :
    tb2.width = tb.width ∧ tb2.height = tb.height ∧
    (List.range (min tb.height (img.Dy * 2))).foldlM
      (fun cells y =>
        renderFrameHiResRow img fn attribs tb.width (min tb.width img.Dx) y cells) tb.cells
      = .ok tb2.cells := by
  unfold renderFrameHiRes at h
  simp only [index, hg, bind, Except.bind, pure, Except.pure] at h
  cases hl : (List.range (min tb.height (img.Dy * 2))).foldlM
      (fun cells y =>
        renderFrameHiResRow img fn attribs tb.width (min tb.width img.Dx) y cells) tb.cells with
  | error e => simp [hl] at h
  | ok cs =>
    simp only [hl, Except.ok.injEq] at h
    subst h
    exact ⟨rfl, rfl, rfl⟩

/-- A returning `renderFrameHiRes` has read every pixel it visits in range, and
has applied to the cell at `(x0, r)` the action of source row `2r` and then
that of source row `2r + 1`, as far as those rows are below the loop bound. -/
theorem renderFrameHiRes_ok (g : GIF) (fn : Nat) (attribs : List AttribTable)
    (tb tb2 : Termbox) (img : Paletted) (hg : g.Image[fn]? = some img)
    (h : renderFrameHiRes g fn attribs tb = .ok tb2) :
    tb2.width = tb.width ∧ tb2.height = tb.height ∧ tb2.cells.length = tb.cells.length ∧
    (∀ x y, x < min tb.width img.Dx → y < min tb.height (img.Dy * 2) →
      ∃ a, pixelInfo img fn attribs x y = some a) ∧
    ∀ x0 r, x0 < tb.width →
      tb2.cells[x0 + r * tb.width]? = (tb.cells[x0 + r * tb.width]?).map (fun c =>
        if 2 * r + 1 < min tb.height (img.Dy * 2) ∧ x0 < min tb.width img.Dx then
          paintWith (paintHiRes (2 * r + 1)) (pixelInfo img fn attribs x0 (2 * r + 1))
            (paintWith (paintHiRes (2 * r)) (pixelInfo img fn attribs x0 (2 * r)) c)
        else if 2 * r < min tb.height (img.Dy * 2) ∧ x0 < min tb.width img.Dx then
          paintWith (paintHiRes (2 * r)) (pixelInfo img fn attribs x0 (2 * r)) c
        else c) := by
  obtain ⟨hw, hh, hl⟩ := renderFrameHiRes_loops g fn attribs tb tb2 img hg h
  have hread := foldlM_ok_forall
    (fun cells y => renderFrameHiResRow img fn attribs tb.width (min tb.width img.Dx) y cells)
    (fun y => ∀ x, x < min tb.width img.Dx → ∃ a, pixelInfo img fn attribs x y = some a)
    (fun y cs cs2 hs => (renderFrameHiResRow_ok img fn attribs _ _ y cs cs2 hs).2.1)
    _ _ _ hl
  have hpt := foldlM_pointwise
    (fun cells y => renderFrameHiResRow img fn attribs tb.width (min tb.width img.Dx) y cells)
    (fun y j c => (List.range (min tb.width img.Dx)).foldl
      (fun c x =>
        if x + y / 2 * tb.width = j
        then paintWith (paintHiRes y) (pixelInfo img fn attribs x y) c else c) c)
    (fun y cs cs2 hs =>
      ⟨(renderFrameHiResRow_ok img fn attribs _ _ y cs cs2 hs).1,
       (renderFrameHiResRow_ok img fn attribs _ _ y cs cs2 hs).2.2⟩)
    _ _ _ hl
  refine ⟨hw, hh, hpt.1, fun x y hx hy => hread y (List.mem_range.2 hy) x hx, ?_⟩
  intro x0 r hx0
  rw [hpt.2]
  congr 1
  funext c
  have hrow : (fun (c : Cell) (y : Nat) => (List.range (min tb.width img.Dx)).foldl
      (fun c x =>
        if x + y / 2 * tb.width = x0 + r * tb.width
        then paintWith (paintHiRes y) (pixelInfo img fn attribs x y) c else c) c)
      = (fun c y => if r = y / 2 ∧ x0 < min tb.width img.Dx
          then paintWith (paintHiRes y) (pixelInfo img fn attribs x0 y) c else c) := by
    funext c y
    exact foldl_row tb.width (y / 2) x0 r
      (fun x => paintWith (paintHiRes y) (pixelInfo img fn attribs x y)) hx0 _
      (min_le_left _ _) c
  rw [hrow]
  exact foldl_rows_hiRes (min tb.width img.Dx) x0 r
    (fun y => paintWith (paintHiRes y) (pixelInfo img fn attribs x0 y)) _ c


/-! ## Faults -/

/-- An iteration of `renderFrame` at a grid position can only stop at the pixel
read or at the table lookup: the cell access is in range. -/
theorem renderFrameCell_error (img : Paletted) (fn : Nat) (attribs : List AttribTable)
    (W H y x : Nat) (cells : List Cell) (e : Fault) (hlen : cells.length = W * H)
    (hx : x < W) (hy : y < H)
    (h : renderFrameCell img fn attribs W y x cells = .error e) :
    (img.Pix[x + img.Stride * y]? = none ∧ e = Fault.pix (x + img.Stride * y)) ∨
    (attribs[fn]? = none ∧ e = Fault.attribs fn) := by
  unfold renderFrameCell at h
  cases hp : img.Pix[x + img.Stride * y]? with
  | none =>
    simp only [index, hp, bind, Except.bind, Except.error.injEq] at h
    exact Or.inl ⟨rfl, h.symm⟩
  | some i =>
    cases ht : attribs[fn]? with
    | none =>
      simp only [index, hp, ht, bind, Except.bind, Except.error.injEq] at h
      exact Or.inr ⟨rfl, h.symm⟩
    | some tab =>
      exfalso
      have hidx : x + y * W < cells.length := hlen ▸ cell_index_lt W H x y hx hy
      simp only [index, hp, ht, bind, Except.bind, pure, Except.pure,
        List.getElem?_eq_getElem hidx] at h
      split at h <;> simp at h

/-- An iteration of `renderFrameHiRes` whose target row `y / 2` is a grid row
can only stop at the pixel read or at the table lookup. -/
theorem renderFrameHiResCell_error (img : Paletted) (fn : Nat) (attribs : List AttribTable)
    (W H y x : Nat) (cells : List Cell) (e : Fault) (hlen : cells.length = W * H)
    (hx : x < W) (hy : y / 2 < H)
    (h : renderFrameHiResCell img fn attribs W y x cells = .error e) :
    (img.Pix[x + img.Stride * y]? = none ∧ e = Fault.pix (x + img.Stride * y)) ∨
    (attribs[fn]? = none ∧ e = Fault.attribs fn) := by
  unfold renderFrameHiResCell at h
  cases hp : img.Pix[x + img.Stride * y]? with
  | none =>
    simp only [index, hp, bind, Except.bind, Except.error.injEq] at h
    exact Or.inl ⟨rfl, h.symm⟩
  | some i =>
    cases ht : attribs[fn]? with
    | none =>
      simp only [index, hp, ht, bind, Except.bind, Except.error.injEq] at h
      exact Or.inr ⟨rfl, h.symm⟩
    | some tab =>
      exfalso
      have hidx : x + y / 2 * W < cells.length := hlen ▸ cell_index_lt W H x (y / 2) hx hy
      simp [index, hp, ht, bind, Except.bind, pure, Except.pure,
        List.getElem?_eq_getElem hidx] at h

/-- The faults `renderFrame` can stop with on a `W × H` cell buffer: the frame
lookup, a pixel read of the painted rectangle, or the table lookup. -/
theorem renderFrame_fault (g : GIF) (fn : Nat) (attribs : List AttribTable) (tb : Termbox)
    (e : Fault) (hcells : tb.cells.length = tb.width * tb.height)
    (h : renderFrame g fn attribs tb = .error e) :
    (g.Image[fn]? = none ∧ e = Fault.image fn) ∨
    (∃ img, g.Image[fn]? = some img ∧
      ((∃ x y, x < min tb.width img.Dx ∧ y < min tb.height img.Dy ∧
          img.Pix[x + img.Stride * y]? = none ∧ e = Fault.pix (x + img.Stride * y)) ∨
       (attribs[fn]? = none ∧ e = Fault.attribs fn))) := by
  unfold renderFrame at h
  cases hg : g.Image[fn]? with
  | none =>
    simp only [index, hg, bind, Except.bind, Except.error.injEq] at h
    exact Or.inl ⟨rfl, h.symm⟩
  | some img =>
    refine Or.inr ⟨img, rfl, ?_⟩
    simp only [index, hg, bind, Except.bind, pure, Except.pure] at h
    cases hl : (List.range (min tb.height img.Dy)).foldlM
        (fun cells y =>
          renderFrameRow img fn attribs tb.width (min tb.width img.Dx) y cells) tb.cells with
    | ok cs => simp [hl] at h
    | error e0 =>
      simp only [hl, Except.error.injEq] at h
      subst h
      refine (foldlM_invariant
        (fun cells y =>
          renderFrameRow img fn attribs tb.width (min tb.width img.Dx) y cells)
        (fun cs => cs.length = tb.width * tb.height)
        (fun e => (∃ x y, x < min tb.width img.Dx ∧ y < min tb.height img.Dy ∧
            img.Pix[x + img.Stride * y]? = none ∧ e = Fault.pix (x + img.Stride * y)) ∨
          (attribs[fn]? = none ∧ e = Fault.attribs fn))
        _ tb.cells ?_ hcells).2 e0 hl
      intro y hy cs hcs
      have hy2 : y < min tb.height img.Dy := List.mem_range.1 hy
      refine foldlM_invariant
        (fun cells x => renderFrameCell img fn attribs tb.width y x cells)
        (fun cs => cs.length = tb.width * tb.height)
        (fun e => (∃ x y, x < min tb.width img.Dx ∧ y < min tb.height img.Dy ∧
            img.Pix[x + img.Stride * y]? = none ∧ e = Fault.pix (x + img.Stride * y)) ∨
          (attribs[fn]? = none ∧ e = Fault.attribs fn))
        _ cs ?_ hcs
      intro x hx cs1 hcs1
      have hx2 : x < min tb.width img.Dx := List.mem_range.1 hx
      constructor
      · intro cs2 hs
        obtain ⟨_, _, hlen, _⟩ := renderFrameCell_ok img fn attribs _ y x cs1 cs2 hs
        exact hlen.trans hcs1
      · intro e1 hs
        rcases renderFrameCell_error img fn attribs tb.width tb.height y x cs1 e1 hcs1
            (Nat.lt_of_lt_of_le hx2 (min_le_left _ _))
            (Nat.lt_of_lt_of_le hy2 (min_le_left _ _)) hs with hp | ht
        · exact Or.inl ⟨x, y, hx2, hy2, hp⟩
        · exact Or.inr ht

/-- The faults `renderFrameHiRes` can stop with on a `W × H` cell buffer. -/
theorem renderFrameHiRes_fault (g : GIF) (fn : Nat) (attribs : List AttribTable)
    (tb : Termbox) (e : Fault) (hcells : tb.cells.length = tb.width * tb.height)
    (h : renderFrameHiRes g fn attribs tb = .error e) :
    (g.Image[fn]? = none ∧ e = Fault.image fn) ∨
    (∃ img, g.Image[fn]? = some img ∧
      ((∃ x y, x < min tb.width img.Dx ∧ y < min tb.height (img.Dy * 2) ∧
          img.Pix[x + img.Stride * y]? = none ∧ e = Fault.pix (x + img.Stride * y)) ∨
       (attribs[fn]? = none ∧ e = Fault.attribs fn))) := by
  unfold renderFrameHiRes at h
  cases hg : g.Image[fn]? with
  | none =>
    simp only [index, hg, bind, Except.bind, Except.error.injEq] at h
    exact Or.inl ⟨rfl, h.symm⟩
  | some img =>
    refine Or.inr ⟨img, rfl, ?_⟩
    simp only [index, hg, bind, Except.bind, pure, Except.pure] at h
    cases hl : (List.range (min tb.height (img.Dy * 2))).foldlM
        (fun cells y =>
          renderFrameHiResRow img fn attribs tb.width (min tb.width img.Dx) y cells)
        tb.cells with
    | ok cs => simp [hl] at h
    | error e0 =>
      simp only [hl, Except.error.injEq] at h
      subst h
      refine (foldlM_invariant
        (fun cells y =>
          renderFrameHiResRow img fn attribs tb.width (min tb.width img.Dx) y cells)
        (fun cs => cs.length = tb.width * tb.height)
        (fun e => (∃ x y, x < min tb.width img.Dx ∧ y < min tb.height (img.Dy * 2) ∧
            img.Pix[x + img.Stride * y]? = none ∧ e = Fault.pix (x + img.Stride * y)) ∨
          (attribs[fn]? = none ∧ e = Fault.attribs fn))
        _ tb.cells ?_ hcells).2 e0 hl
      intro y hy cs hcs
      have hy2 : y < min tb.height (img.Dy * 2) := List.mem_range.1 hy
      refine foldlM_invariant
        (fun cells x => renderFrameHiResCell img fn attribs tb.width y x cells)
        (fun cs => cs.length = tb.width * tb.height)
        (fun e => (∃ x y, x < min tb.width img.Dx ∧ y < min tb.height (img.Dy * 2) ∧
            img.Pix[x + img.Stride * y]? = none ∧ e = Fault.pix (x + img.Stride * y)) ∨
          (attribs[fn]? = none ∧ e = Fault.attribs fn))
        _ cs ?_ hcs
      intro x hx cs1 hcs1
      have hx2 : x < min tb.width img.Dx := List.mem_range.1 hx
      constructor
      · intro cs2 hs
        obtain ⟨_, _, hlen, _⟩ := renderFrameHiResCell_ok img fn attribs _ y x cs1 cs2 hs
        exact hlen.trans hcs1
      · intro e1 hs
        have hyH : y < tb.height := Nat.lt_of_lt_of_le hy2 (min_le_left _ _)
        rcases renderFrameHiResCell_error img fn attribs tb.width tb.height y x cs1 e1 hcs1
            (Nat.lt_of_lt_of_le hx2 (min_le_left _ _)) (by omega) hs with hp | ht
        · exact Or.inl ⟨x, y, hx2, hy2, hp⟩
        · exact Or.inr ht


/-! ## Completion -/

theorem pix_index_lt (S D x y L : Nat) (hx : x < S) (hy : y < D) (hL : S * D ≤ L) :
    x + S * y < L := by
  have h1 : S * (y + 1) ≤ S * D := Nat.mul_le_mul_left S hy
  rw [Nat.mul_succ] at h1
  omega

/-- On a frame whose pixel buffer covers `Stride × Dy` with `Dx ≤ Stride`, and a
`W × H` cell buffer, `renderFrame` returns. -/
theorem renderFrame_total (g : GIF) (fn : Nat) (attribs : List AttribTable) (tb : Termbox)
    (img : Paletted) (tab : AttribTable) (hg : g.Image[fn]? = some img)
    (ha : attribs[fn]? = some tab) (hcells : tb.cells.length = tb.width * tb.height)
    (hstride : img.Dx ≤ img.Stride) (hpix : img.Stride * img.Dy ≤ img.Pix.length) :
    ∃ tb2, renderFrame g fn attribs tb = .ok tb2 := by
  cases h : renderFrame g fn attribs tb with
  | ok tb2 => exact ⟨tb2, rfl⟩
  | error e =>
    exfalso
    rcases renderFrame_fault g fn attribs tb e hcells h with ⟨hn, _⟩ | ⟨img2, hg2, hf⟩
    · rw [hg] at hn
      exact Option.noConfusion hn
    · rw [hg] at hg2
      cases hg2
      rcases hf with ⟨x, y, hx, hy, hnone, _⟩ | ⟨hn, _⟩
      · have hx2 : x < img.Stride :=
          Nat.lt_of_lt_of_le (Nat.lt_of_lt_of_le hx (min_le_right _ _)) hstride
        have hy2 : y < img.Dy := Nat.lt_of_lt_of_le hy (min_le_right _ _)
        have hlt := pix_index_lt img.Stride img.Dy x y _ hx2 hy2 hpix
        rw [List.getElem?_eq_getElem hlt] at hnone
        exact Option.noConfusion hnone
      · rw [ha] at hn
        exact Option.noConfusion hn

/-- On such a frame `renderFrameHiRes` returns when its row bound
`min(theight, Dy*2)` does not exceed the frame height. -/
theorem renderFrameHiRes_total (g : GIF) (fn : Nat) (attribs : List AttribTable)
    (tb : Termbox) (img : Paletted) (tab : AttribTable) (hg : g.Image[fn]? = some img)
    (ha : attribs[fn]? = some tab) (hcells : tb.cells.length = tb.width * tb.height)
    (hstride : img.Dx ≤ img.Stride) (hpix : img.Stride * img.Dy ≤ img.Pix.length)
    (hfit : min tb.height (img.Dy * 2) ≤ img.Dy) :
    ∃ tb2, renderFrameHiRes g fn attribs tb = .ok tb2 := by
  cases h : renderFrameHiRes g fn attribs tb with
  | ok tb2 => exact ⟨tb2, rfl⟩
  | error e =>
    exfalso
    rcases renderFrameHiRes_fault g fn attribs tb e hcells h with ⟨hn, _⟩ | ⟨img2, hg2, hf⟩
    · rw [hg] at hn
      exact Option.noConfusion hn
    · rw [hg] at hg2
      cases hg2
      rcases hf with ⟨x, y, hx, hy, hnone, _⟩ | ⟨hn, _⟩
      · have hx2 : x < img.Stride :=
          Nat.lt_of_lt_of_le (Nat.lt_of_lt_of_le hx (min_le_right _ _)) hstride
        have hy2 : y < img.Dy := Nat.lt_of_lt_of_le hy hfit
        have hlt := pix_index_lt img.Stride img.Dy x y _ hx2 hy2 hpix
        rw [List.getElem?_eq_getElem hlt] at hnone
        exact Option.noConfusion hnone
      · rw [ha] at hn
        exact Option.noConfusion hn

theorem pixelInfo_some (img : Paletted) (fn : Nat) (attribs : List AttribTable) (x y : Nat)
    (a : AttribInfo) (tab : AttribTable) (ha : attribs[fn]? = some tab)
    (h : pixelInfo img fn attribs x y = some a) :
    ∃ i, img.Pix[x + img.Stride * y]? = some i ∧ tab i = a := by
  unfold pixelInfo at h
  rw [ha] at h
  cases hp : img.Pix[x + img.Stride * y]? with
  | none => simp [hp] at h
  | some i =>
    simp only [hp, Option.some.injEq] at h
    exact ⟨i, rfl, h⟩


/-! ## The standard renderer -/

/-- Two `W × H` cell buffers that agree at every grid position are equal. -/
theorem cells_ext (W H : Nat) (l1 l2 : List Cell) (h1 : l1.length = W * H)
    (h2 : l2.length = W * H)
    (h : ∀ x y, x < W → y < H → l1[x + y * W]? = l2[x + y * W]?) : l1 = l2 := by
  apply List.ext_getElem?
  intro j
  by_cases hj : j < W * H
  · have hW : 0 < W := by
      rcases Nat.eq_zero_or_pos W with h0 | hpos
      · rw [h0, Nat.zero_mul] at hj
        omega
      · exact hpos
    have hy : j / W < H := (Nat.div_lt_iff_lt_mul hW).2 (by rw [Nat.mul_comm]; exact hj)
    have hx : j % W < W := Nat.mod_lt j hW
    have hjeq : j % W + j / W * W = j := by
      rw [Nat.mul_comm]
      exact Nat.mod_add_div j W
    have := h (j % W) (j / W) hx hy
    rwa [hjeq] at this
  · rw [List.getElem?_eq_none (by omega), List.getElem?_eq_none (by omega)]

/-- The cell at a grid position before and after a returning `renderFrame`. -/
theorem renderFrame_cell (g : GIF) (fn : Nat) (attribs : List AttribTable) (tb tb2 : Termbox)
    (img : Paletted) (hg : g.Image[fn]? = some img)
    (hcells : tb.cells.length = tb.width * tb.height)
    (h : renderFrame g fn attribs tb = .ok tb2) (x y : Nat) (hx : x < tb.width)
    (hy : y < tb.height) :
    ∃ c, tb.cells[x + y * tb.width]? = some c ∧
      tb2.cells[x + y * tb.width]? = some
        (if y < min tb.height img.Dy ∧ x < min tb.width img.Dx
         then paintWith paintStd (pixelInfo img fn attribs x y) c else c) := by
  obtain ⟨_, _, _, _, hcell⟩ := renderFrame_ok g fn attribs tb tb2 img hg h
  have hlt : x + y * tb.width < tb.cells.length :=
    hcells ▸ cell_index_lt tb.width tb.height x y hx hy
  refine ⟨tb.cells[x + y * tb.width], List.getElem?_eq_getElem hlt, ?_⟩
  rw [hcell x y hx, List.getElem?_eq_getElem hlt]
  rfl

/-- C1. For every grid of `W × H` cells, every frame whose pixel buffer covers
`Stride × Dy` with `Dx ≤ Stride`, and every attribute table, `renderFrame`
returns a grid of the same shape in which each cell `(x, y)` with
`x < min(W, Dx)`, `y < min(H, Dy)` whose pixel `Pix[x + Stride*y]` maps to a
non-transparent entry has foreground = background = that entry's attribute,
and every other cell (outside that rectangle, or with a transparent entry) is
identical to its pre-call state; when `Dx ≤ W` and `Dy ≤ H` nothing outside the
`Dx × Dy` rectangle changes, and when the computed width or height is 0 the
grid is unchanged. -/
theorem renderFrame_postcondition (g : GIF) (fn : Nat) (attribs : List AttribTable)
    (tb : Termbox) (img : Paletted) (tab : AttribTable) (hg : g.Image[fn]? = some img)
    (ha : attribs[fn]? = some tab) (hcells : tb.cells.length = tb.width * tb.height)
    (hstride : img.Dx ≤ img.Stride) (hpix : img.Stride * img.Dy ≤ img.Pix.length) :
    ∃ tb2, renderFrame g fn attribs tb = .ok tb2 ∧
      tb2.width = tb.width ∧ tb2.height = tb.height ∧ tb2.cells.length = tb.cells.length ∧
      (∀ x y, x < tb.width → y < tb.height →
        ∃ c c2, tb.cells[x + y * tb.width]? = some c ∧
          tb2.cells[x + y * tb.width]? = some c2 ∧
          (x < min tb.width img.Dx ∧ y < min tb.height img.Dy →
            ∃ i, img.Pix[x + img.Stride * y]? = some i ∧
              ((tab i).trans = false →
                c2.Fg = (tab i).attr ∧ c2.Bg = (tab i).attr ∧ c2.Ch = c.Ch) ∧
              ((tab i).trans = true → c2 = c)) ∧
          (¬ (x < min tb.width img.Dx ∧ y < min tb.height img.Dy) → c2 = c)) ∧
      (img.Dx ≤ tb.width → img.Dy ≤ tb.height →
        ∀ x y, x < tb.width → y < tb.height → ¬ (x < img.Dx ∧ y < img.Dy) →
          tb2.cells[x + y * tb.width]? = tb.cells[x + y * tb.width]?) ∧
      (min tb.width img.Dx = 0 ∨ min tb.height img.Dy = 0 → tb2 = tb) := by
  obtain ⟨tb2, h⟩ := renderFrame_total g fn attribs tb img tab hg ha hcells hstride hpix
  obtain ⟨hw, hh, hlen, hread, _⟩ := renderFrame_ok g fn attribs tb tb2 img hg h
  have hcell := renderFrame_cell g fn attribs tb tb2 img hg hcells h
  refine ⟨tb2, h, hw, hh, hlen, ?_, ?_, ?_⟩
  · intro x y hx hy
    obtain ⟨c, hc, hc2⟩ := hcell x y hx hy
    refine ⟨c, _, hc, hc2, ?_, ?_⟩
    · rintro ⟨hxw, hyh⟩
      obtain ⟨a, hpa⟩ := hread x y hxw hyh
      obtain ⟨i, hpi, hti⟩ := pixelInfo_some img fn attribs x y a tab ha hpa
      refine ⟨i, hpi, ?_, ?_⟩
      · intro htr
        simp [hxw, hyh, hpa, paintWith, paintStd, ← hti, htr]
      · intro htr
        simp [hxw, hyh, hpa, paintWith, paintStd, ← hti, htr]
    · intro hout
      rw [if_neg (fun hin => hout ⟨hin.2, hin.1⟩)]
  · intro _ _ x y hx hy hout
    obtain ⟨c, hc, hc2⟩ := hcell x y hx hy
    rw [hc, hc2, if_neg]
    rintro ⟨hyh, hxw⟩
    exact hout ⟨Nat.lt_of_lt_of_le hxw (min_le_right _ _),
      Nat.lt_of_lt_of_le hyh (min_le_right _ _)⟩
  · intro hzero
    have hcs : tb2.cells = tb.cells := by
      refine cells_ext tb.width tb.height _ _ (hlen.trans hcells) hcells ?_
      intro x y hx hy
      obtain ⟨c, hc, hc2⟩ := hcell x y hx hy
      rw [hc, hc2, if_neg]
      rintro ⟨hyh, hxw⟩
      rcases hzero with h0 | h0
      · rw [h0] at hxw
        omega
      · rw [h0] at hyh
        omega
    obtain ⟨w2, h2, c2⟩ := tb2
    obtain ⟨w1, h1, c1⟩ := tb
    simp only at hw hh hcs
    subst hw hh hcs
    rfl


theorem renderFrame_postcondition_witness :
    ((GIF.mk [sampleFrame]).Image[0]? = some sampleFrame ∧
      [sampleTable][0]? = some sampleTable ∧
      (blankGrid 2 3).cells.length = (blankGrid 2 3).width * (blankGrid 2 3).height ∧
      sampleFrame.Dx ≤ sampleFrame.Stride ∧
      sampleFrame.Stride * sampleFrame.Dy ≤ sampleFrame.Pix.length) ∧
    (∃ tb2, renderFrame (GIF.mk [sampleFrame]) 0 [sampleTable] (blankGrid 2 3) = .ok tb2 ∧
      tb2.width = (blankGrid 2 3).width ∧ tb2.height = (blankGrid 2 3).height ∧
        tb2.cells.length = (blankGrid 2 3).cells.length ∧
      (∀ x y, x < (blankGrid 2 3).width → y < (blankGrid 2 3).height →
        ∃ c c2, (blankGrid 2 3).cells[x + y * (blankGrid 2 3).width]? = some c ∧
          tb2.cells[x + y * (blankGrid 2 3).width]? = some c2 ∧
          (x < min (blankGrid 2 3).width sampleFrame.Dx ∧
            y < min (blankGrid 2 3).height sampleFrame.Dy →
            ∃ i, sampleFrame.Pix[x + sampleFrame.Stride * y]? = some i ∧
              ((sampleTable i).trans = false →
                c2.Fg = (sampleTable i).attr ∧ c2.Bg = (sampleTable i).attr ∧ c2.Ch = c.Ch) ∧
              ((sampleTable i).trans = true → c2 = c)) ∧
          (¬ (x < min (blankGrid 2 3).width sampleFrame.Dx ∧
            y < min (blankGrid 2 3).height sampleFrame.Dy) → c2 = c)) ∧
      (sampleFrame.Dx ≤ (blankGrid 2 3).width → sampleFrame.Dy ≤ (blankGrid 2 3).height →
        ∀ x y, x < (blankGrid 2 3).width → y < (blankGrid 2 3).height → ¬ (x < sampleFrame.Dx ∧
          y < sampleFrame.Dy) →
          tb2.cells[x + y * (blankGrid 2 3).width]? =
            (blankGrid 2 3).cells[x + y * (blankGrid 2 3).width]?) ∧
      (min (blankGrid 2 3).width sampleFrame.Dx = 0 ∨ min (blankGrid 2 3).height sampleFrame.Dy =
        0 → tb2 = (blankGrid 2 3))) :=
  ⟨⟨rfl, rfl, rfl, by decide, by decide⟩,
    renderFrame_postcondition (GIF.mk [sampleFrame]) 0 [sampleTable] (blankGrid 2 3)
      sampleFrame sampleTable rfl rfl rfl (by decide) (by decide)⟩

/-! ## The high-resolution renderer -/

theorem paintHiRes_even (r : Nat) (a : AttribInfo) (c : Cell) :
    paintHiRes (2 * r) a c
      = { Ch := lowerHalfBlock, Fg := c.Fg, Bg := if a.trans then c.Bg else a.attr } := by
  unfold paintHiRes
  cases a.trans <;> simp

theorem paintHiRes_odd (r : Nat) (a : AttribInfo) (c : Cell) :
    paintHiRes (2 * r + 1) a c
      = { Ch := lowerHalfBlock, Fg := if a.trans then c.Fg else a.attr, Bg := c.Bg } := by
  unfold paintHiRes
  have h : (2 * r + 1) % 2 ≠ 0 := by omega
  cases a.trans <;> simp [h]

/-- The cell at a grid position before and after a returning
`renderFrameHiRes`. -/
theorem renderFrameHiRes_cell (g : GIF) (fn : Nat) (attribs : List AttribTable)
    (tb tb2 : Termbox) (img : Paletted) (hg : g.Image[fn]? = some img)
    (hcells : tb.cells.length = tb.width * tb.height)
    (h : renderFrameHiRes g fn attribs tb = .ok tb2) (x r : Nat) (hx : x < tb.width)
    (hr : r < tb.height) :
    ∃ c, tb.cells[x + r * tb.width]? = some c ∧
      tb2.cells[x + r * tb.width]? = some
        (if 2 * r + 1 < min tb.height (img.Dy * 2) ∧ x < min tb.width img.Dx then
          paintWith (paintHiRes (2 * r + 1)) (pixelInfo img fn attribs x (2 * r + 1))
            (paintWith (paintHiRes (2 * r)) (pixelInfo img fn attribs x (2 * r)) c)
        else if 2 * r < min tb.height (img.Dy * 2) ∧ x < min tb.width img.Dx then
          paintWith (paintHiRes (2 * r)) (pixelInfo img fn attribs x (2 * r)) c
        else c) := by
  obtain ⟨_, _, _, _, hcell⟩ := renderFrameHiRes_ok g fn attribs tb tb2 img hg h
  have hlt : x + r * tb.width < tb.cells.length :=
    hcells ▸ cell_index_lt tb.width tb.height x r hx hr
  refine ⟨tb.cells[x + r * tb.width], List.getElem?_eq_getElem hlt, ?_⟩
  rw [hcell x r hx, List.getElem?_eq_getElem hlt]
  rfl

/-- The colours and glyph of a cell of a painted column after a returning
`renderFrameHiRes`, by the number of source rows that fall on it. -/
theorem renderFrameHiRes_cell_fields (g : GIF) (fn : Nat) (attribs : List AttribTable)
    (tb tb2 : Termbox) (img : Paletted) (tab : AttribTable) (hg : g.Image[fn]? = some img)
    (ha : attribs[fn]? = some tab) (hcells : tb.cells.length = tb.width * tb.height)
    (h : renderFrameHiRes g fn attribs tb = .ok tb2) (x r : Nat)
    (hx : x < min tb.width img.Dx) (hr : r < tb.height) :
    ∃ c c2, tb.cells[x + r * tb.width]? = some c ∧
      tb2.cells[x + r * tb.width]? = some c2 ∧
      (2 * r < min tb.height (img.Dy * 2) →
        ∃ i, img.Pix[x + img.Stride * (2 * r)]? = some i ∧
          c2.Bg = (if (tab i).trans then c.Bg else (tab i).attr) ∧
          c2.Ch = lowerHalfBlock) ∧
      (¬ 2 * r < min tb.height (img.Dy * 2) → c2 = c) ∧
      (2 * r + 1 < min tb.height (img.Dy * 2) →
        ∃ i, img.Pix[x + img.Stride * (2 * r + 1)]? = some i ∧
          c2.Fg = (if (tab i).trans then c.Fg else (tab i).attr)) ∧
      (¬ 2 * r + 1 < min tb.height (img.Dy * 2) → c2.Fg = c.Fg) := by
  obtain ⟨_, _, _, hread, _⟩ := renderFrameHiRes_ok g fn attribs tb tb2 img hg h
  have hxW : x < tb.width := Nat.lt_of_lt_of_le hx (min_le_left _ _)
  obtain ⟨c, hc, hc2⟩ := renderFrameHiRes_cell g fn attribs tb tb2 img hg hcells h x r hxW hr
  refine ⟨c, _, hc, hc2, ?_, ?_, ?_, ?_⟩
  · intro h0
    obtain ⟨a0, hp0⟩ := hread x (2 * r) hx h0
    obtain ⟨i0, hi0, ht0⟩ := pixelInfo_some img fn attribs x (2 * r) a0 tab ha hp0
    refine ⟨i0, hi0, ?_⟩
    by_cases h1 : 2 * r + 1 < min tb.height (img.Dy * 2)
    · obtain ⟨a1, hp1⟩ := hread x (2 * r + 1) hx h1
      simp only [h0, h1, hx, and_self, if_true, hp0, hp1, paintWith, paintHiRes_even,
        paintHiRes_odd, ht0]
    · simp only [h0, h1, hx, and_self, and_true, false_and, if_true, if_false, hp0, paintWith,
        paintHiRes_even, ht0]
  · intro h0
    have h1 : ¬ 2 * r + 1 < min tb.height (img.Dy * 2) := fun h1 => h0 (by omega)
    simp only [h0, h1, false_and, if_false]
  · intro h1
    have h0 : 2 * r < min tb.height (img.Dy * 2) := by omega
    obtain ⟨a0, hp0⟩ := hread x (2 * r) hx h0
    obtain ⟨a1, hp1⟩ := hread x (2 * r + 1) hx h1
    obtain ⟨i1, hi1, ht1⟩ := pixelInfo_some img fn attribs x (2 * r + 1) a1 tab ha hp1
    refine ⟨i1, hi1, ?_⟩
    simp only [h1, hx, and_self, if_true, hp0, hp1, paintWith, paintHiRes_even,
      paintHiRes_odd, ht1]
  · intro h1
    by_cases h0 : 2 * r < min tb.height (img.Dy * 2)
    · obtain ⟨a0, hp0⟩ := hread x (2 * r) hx h0
      simp only [h0, h1, hx, and_self, and_true, false_and, if_true, if_false, hp0, paintWith,
        paintHiRes_even]
    · simp only [h0, h1, false_and, if_false]


/-- C2. For every `W × H` grid, frame and attribute table, with
`width = min(W, Dx)` and `height = min(H, Dy*2)`: after a returning
`renderFrameHiRes` each cell `(x, r)` with `x < width` has background equal to
the attribute of source pixel `(x, 2r)` if `2r < height` and that pixel is not
transparent, and otherwise its pre-call background; and foreground equal to
the attribute of source pixel `(x, 2r+1)` if `2r+1 < height` and that pixel is
not transparent, and otherwise its pre-call foreground. The call returns
whenever the frame covers `Stride × Dy` pixels, `Dx ≤ Stride`, and `height`
does not exceed `Dy`. -/
theorem renderFrameHiRes_colours (g : GIF) (fn : Nat) (attribs : List AttribTable)
    (tb : Termbox) (img : Paletted) (tab : AttribTable) (hg : g.Image[fn]? = some img)
    (ha : attribs[fn]? = some tab) (hcells : tb.cells.length = tb.width * tb.height) :
    (∀ tb2, renderFrameHiRes g fn attribs tb = .ok tb2 →
      ∀ x r, x < min tb.width img.Dx → r < tb.height →
        ∃ c c2, tb.cells[x + r * tb.width]? = some c ∧
          tb2.cells[x + r * tb.width]? = some c2 ∧
          (2 * r < min tb.height (img.Dy * 2) →
            ∃ i, img.Pix[x + img.Stride * (2 * r)]? = some i ∧
              c2.Bg = (if (tab i).trans then c.Bg else (tab i).attr)) ∧
          (¬ 2 * r < min tb.height (img.Dy * 2) → c2.Bg = c.Bg) ∧
          (2 * r + 1 < min tb.height (img.Dy * 2) →
            ∃ i, img.Pix[x + img.Stride * (2 * r + 1)]? = some i ∧
              c2.Fg = (if (tab i).trans then c.Fg else (tab i).attr)) ∧
          (¬ 2 * r + 1 < min tb.height (img.Dy * 2) → c2.Fg = c.Fg)) ∧
    (img.Dx ≤ img.Stride → img.Stride * img.Dy ≤ img.Pix.length →
      min tb.height (img.Dy * 2) ≤ img.Dy →
      ∃ tb2, renderFrameHiRes g fn attribs tb = .ok tb2) := by
  refine ⟨?_, fun hstride hpix hfit =>
    renderFrameHiRes_total g fn attribs tb img tab hg ha hcells hstride hpix hfit⟩
  intro tb2 h x r hx hr
  obtain ⟨c, c2, hc, hc2, h0, h0n, h1, h1n⟩ :=
    renderFrameHiRes_cell_fields g fn attribs tb tb2 img tab hg ha hcells h x r hx hr
  refine ⟨c, c2, hc, hc2, ?_, ?_, h1, h1n⟩
  · intro hlt
    obtain ⟨i, hi, hbg, _⟩ := h0 hlt
    exact ⟨i, hi, hbg⟩
  · intro hge
    rw [h0n hge]

theorem renderFrameHiRes_colours_witness :
    ((GIF.mk [sampleFrame]).Image[0]? = some sampleFrame ∧
      [sampleTable][0]? = some sampleTable ∧
      (blankGrid 2 2).cells.length = (blankGrid 2 2).width * (blankGrid 2 2).height) ∧
    ((∀ tb2, renderFrameHiRes (GIF.mk [sampleFrame]) 0 [sampleTable] (blankGrid 2 2) = .ok tb2 →
        ∀ x r, x < min (blankGrid 2 2).width sampleFrame.Dx → r < (blankGrid 2 2).height →
          ∃ c c2, (blankGrid 2 2).cells[x + r * (blankGrid 2 2).width]? = some c ∧
            tb2.cells[x + r * (blankGrid 2 2).width]? = some c2 ∧
            (2 * r < min (blankGrid 2 2).height (sampleFrame.Dy * 2) →
              ∃ i, sampleFrame.Pix[x + sampleFrame.Stride * (2 * r)]? = some i ∧
                c2.Bg = (if (sampleTable i).trans then c.Bg else (sampleTable i).attr)) ∧
            (¬ 2 * r < min (blankGrid 2 2).height (sampleFrame.Dy * 2) → c2.Bg = c.Bg) ∧
            (2 * r + 1 < min (blankGrid 2 2).height (sampleFrame.Dy * 2) →
              ∃ i, sampleFrame.Pix[x + sampleFrame.Stride * (2 * r + 1)]? = some i ∧
                c2.Fg = (if (sampleTable i).trans then c.Fg else (sampleTable i).attr)) ∧
            (¬ 2 * r + 1 < min (blankGrid 2 2).height (sampleFrame.Dy * 2) → c2.Fg = c.Fg)) ∧
      (sampleFrame.Dx ≤ sampleFrame.Stride →
        sampleFrame.Stride * sampleFrame.Dy ≤ sampleFrame.Pix.length →
        min (blankGrid 2 2).height (sampleFrame.Dy * 2) ≤ sampleFrame.Dy →
        ∃ tb2, renderFrameHiRes (GIF.mk [sampleFrame]) 0 [sampleTable] (blankGrid 2 2) = .ok tb2)) ∧
    ∃ tb2, renderFrameHiRes (GIF.mk [sampleFrame]) 0 [sampleTable] (blankGrid 2 2) = .ok tb2 :=
  ⟨⟨rfl, rfl, rfl⟩,
    renderFrameHiRes_colours (GIF.mk [sampleFrame]) 0 [sampleTable] (blankGrid 2 2)
      sampleFrame sampleTable rfl rfl rfl,
    (renderFrameHiRes_colours (GIF.mk [sampleFrame]) 0 [sampleTable] (blankGrid 2 2)
      sampleFrame sampleTable rfl rfl rfl).2 (by decide) (by decide) (by decide)⟩

/-- C7. After a returning `renderFrameHiRes`, every cell of the painted region
(column `x < min(W, Dx)`, row `y / 2` for a source row `y < min(H, Dy*2)`) has
the lower-half-block glyph, whatever the transparency of its pixels. The call
returns whenever the frame covers `Stride × Dy` pixels, `Dx ≤ Stride`, and the
row bound does not exceed `Dy`. -/
theorem renderFrameHiRes_glyph (g : GIF) (fn : Nat) (attribs : List AttribTable)
    (tb : Termbox) (img : Paletted) (tab : AttribTable) (hg : g.Image[fn]? = some img)
    (ha : attribs[fn]? = some tab) (hcells : tb.cells.length = tb.width * tb.height) :
    (∀ tb2, renderFrameHiRes g fn attribs tb = .ok tb2 →
      ∀ x y, x < min tb.width img.Dx → y < min tb.height (img.Dy * 2) →
        ∃ c2, tb2.cells[x + y / 2 * tb.width]? = some c2 ∧ c2.Ch = lowerHalfBlock) ∧
    (img.Dx ≤ img.Stride → img.Stride * img.Dy ≤ img.Pix.length →
      min tb.height (img.Dy * 2) ≤ img.Dy →
      ∃ tb2, renderFrameHiRes g fn attribs tb = .ok tb2) := by
  refine ⟨?_, fun hstride hpix hfit =>
    renderFrameHiRes_total g fn attribs tb img tab hg ha hcells hstride hpix hfit⟩
  intro tb2 h x y hx hy
  have hyH : y < tb.height := Nat.lt_of_lt_of_le hy (min_le_left _ _)
  obtain ⟨c, c2, _, hc2, h0, _, _, _⟩ :=
    renderFrameHiRes_cell_fields g fn attribs tb tb2 img tab hg ha hcells h x (y / 2) hx
      (by omega)
  obtain ⟨_, _, _, hch⟩ := h0 (by omega)
  exact ⟨c2, hc2, hch⟩

theorem renderFrameHiRes_glyph_witness :
    ((GIF.mk [clearFrame]).Image[0]? = some clearFrame ∧
      [sampleTable][0]? = some sampleTable ∧
      (blankGrid 1 2).cells.length = (blankGrid 1 2).width * (blankGrid 1 2).height) ∧
    ((∀ tb2, renderFrameHiRes (GIF.mk [clearFrame]) 0 [sampleTable] (blankGrid 1 2) = .ok tb2 →
        ∀ x y, x < min (blankGrid 1 2).width clearFrame.Dx →
          y < min (blankGrid 1 2).height (clearFrame.Dy * 2) →
          ∃ c2, tb2.cells[x + y / 2 * (blankGrid 1 2).width]? = some c2 ∧ c2.Ch = lowerHalfBlock) ∧
      (clearFrame.Dx ≤ clearFrame.Stride →
        clearFrame.Stride * clearFrame.Dy ≤ clearFrame.Pix.length →
        min (blankGrid 1 2).height (clearFrame.Dy * 2) ≤ clearFrame.Dy →
        ∃ tb2, renderFrameHiRes (GIF.mk [clearFrame]) 0 [sampleTable] (blankGrid 1 2) = .ok tb2)) ∧
    ∃ tb2, renderFrameHiRes (GIF.mk [clearFrame]) 0 [sampleTable] (blankGrid 1 2) = .ok tb2 :=
  ⟨⟨rfl, rfl, rfl⟩,
    renderFrameHiRes_glyph (GIF.mk [clearFrame]) 0 [sampleTable] (blankGrid 1 2)
      clearFrame sampleTable rfl rfl rfl,
    (renderFrameHiRes_glyph (GIF.mk [clearFrame]) 0 [sampleTable] (blankGrid 1 2)
      clearFrame sampleTable rfl rfl rfl).2 (by decide) (by decide) (by decide)⟩

/-- C5. For every grid of `W × H` cells (cell buffer of length `W * H`) and
every frame, also one wider or taller than the grid: neither `renderFrame` nor
`renderFrameHiRes` ever stops on a cell index out of range, and at every loop
iteration the cell addressed (`x + y*W`, respectively `x + (y/2)*W`) lies at a
column `< W`, a row `< H` and an index below the buffer length. -/
theorem cell_access_in_bounds (g : GIF) (fn : Nat) (attribs : List AttribTable)
    (tb : Termbox) (hcells : tb.cells.length = tb.width * tb.height) :
    (∀ i, renderFrame g fn attribs tb ≠ .error (Fault.cell i)) ∧
    (∀ i, renderFrameHiRes g fn attribs tb ≠ .error (Fault.cell i)) ∧
    (∀ (img : Paletted) (x y : Nat), x < min tb.width img.Dx → y < min tb.height img.Dy →
      x < tb.width ∧ y < tb.height ∧ x + y * tb.width < tb.cells.length) ∧
    (∀ (img : Paletted) (x y : Nat),
      x < min tb.width img.Dx → y < min tb.height (img.Dy * 2) →
      x < tb.width ∧ y / 2 < tb.height ∧ x + y / 2 * tb.width < tb.cells.length) := by
  refine ⟨?_, ?_, ?_, ?_⟩
  · intro i h
    rcases renderFrame_fault g fn attribs tb _ hcells h with
      ⟨_, he⟩ | ⟨img, _, ⟨x, y, _, _, _, he⟩ | ⟨_, he⟩⟩ <;> exact Fault.noConfusion he
  · intro i h
    rcases renderFrameHiRes_fault g fn attribs tb _ hcells h with
      ⟨_, he⟩ | ⟨img, _, ⟨x, y, _, _, _, he⟩ | ⟨_, he⟩⟩ <;> exact Fault.noConfusion he
  · intro img x y hx hy
    have hxW : x < tb.width := Nat.lt_of_lt_of_le hx (min_le_left _ _)
    have hyH : y < tb.height := Nat.lt_of_lt_of_le hy (min_le_left _ _)
    exact ⟨hxW, hyH, hcells ▸ cell_index_lt _ _ x y hxW hyH⟩
  · intro img x y hx hy
    have hxW : x < tb.width := Nat.lt_of_lt_of_le hx (min_le_left _ _)
    have hyH : y < tb.height := Nat.lt_of_lt_of_le hy (min_le_left _ _)
    have hrH : y / 2 < tb.height := by omega
    exact ⟨hxW, hrH, hcells ▸ cell_index_lt _ _ x (y / 2) hxW hrH⟩

theorem cell_access_in_bounds_witness :
    (blankGrid 2 1).cells.length = (blankGrid 2 1).width * (blankGrid 2 1).height ∧
    ((∀ i, renderFrame (GIF.mk [sampleFrame]) 0 [sampleTable] (blankGrid 2 1)
          ≠ .error (Fault.cell i)) ∧
      (∀ i, renderFrameHiRes (GIF.mk [sampleFrame]) 0 [sampleTable] (blankGrid 2 1)
          ≠ .error (Fault.cell i)) ∧
      (∀ (img : Paletted) (x y : Nat), x < min (blankGrid 2 1).width img.Dx →
        y < min (blankGrid 2 1).height img.Dy →
        x < (blankGrid 2 1).width ∧ y < (blankGrid 2 1).height ∧
          x + y * (blankGrid 2 1).width < (blankGrid 2 1).cells.length) ∧
      (∀ (img : Paletted) (x y : Nat),
        x < min (blankGrid 2 1).width img.Dx → y < min (blankGrid 2 1).height (img.Dy * 2) →
        x < (blankGrid 2 1).width ∧ y / 2 < (blankGrid 2 1).height ∧
          x + y / 2 * (blankGrid 2 1).width < (blankGrid 2 1).cells.length)) :=
  ⟨rfl, cell_access_in_bounds (GIF.mk [sampleFrame]) 0 [sampleTable] (blankGrid 2 1) rfl⟩

/-- C6, counterexample. Both pixels of `clearFrame` are transparent, and yet
`renderFrameHiRes` changes the cell they fall on (its glyph). -/
theorem transparent_cell_changed :
    (∀ i ∈ clearFrame.Pix, (sampleTable i).trans = true) ∧
    ∃ tb2, renderFrameHiRes (GIF.mk [clearFrame]) 0 [sampleTable] (blankGrid 1 2) = .ok tb2 ∧
      tb2.cells[0]? ≠ (blankGrid 1 2).cells[0]? :=
  ⟨by simp [clearFrame, sampleTable], ⟨1, 2, [⟨lowerHalfBlock, 0, 0⟩, ⟨32, 0, 0⟩]⟩, rfl,
    by decide⟩

/-- C6, amended. In `renderFrame` an iteration on a transparent pixel returns
the cell buffer unchanged, and after the call a cell whose source pixel is
transparent is identical to its pre-call state. In `renderFrameHiRes` an
iteration on a transparent pixel changes nothing but the glyph of its target
cell, which it sets to the lower half block; after the call a cell of a
painted column whose source pixels are all transparent keeps its foreground
and background, has the lower-half-block glyph if a source row falls on it,
and is identical to its pre-call state otherwise. -/
theorem transparent_pixel_effect (g : GIF) (fn : Nat) (attribs : List AttribTable)
    (tb : Termbox) (img : Paletted) (tab : AttribTable) (hg : g.Image[fn]? = some img)
    (ha : attribs[fn]? = some tab) (hcells : tb.cells.length = tb.width * tb.height) :
    (∀ x y i cs, img.Pix[x + img.Stride * y]? = some i → (tab i).trans = true →
      renderFrameCell img fn attribs tb.width y x cs = .ok cs) ∧
    (∀ tb2, renderFrame g fn attribs tb = .ok tb2 →
      ∀ x y i, x < tb.width → y < tb.height →
        img.Pix[x + img.Stride * y]? = some i → (tab i).trans = true →
        tb2.cells[x + y * tb.width]? = tb.cells[x + y * tb.width]?) ∧
    (∀ x y i cs cs2, img.Pix[x + img.Stride * y]? = some i → (tab i).trans = true →
      renderFrameHiResCell img fn attribs tb.width y x cs = .ok cs2 →
      ∀ j, cs2[j]? = (cs[j]?).map (fun c =>
        if x + y / 2 * tb.width = j then { c with Ch := lowerHalfBlock } else c)) ∧
    (∀ tb2, renderFrameHiRes g fn attribs tb = .ok tb2 →
      ∀ x r, x < min tb.width img.Dx → r < tb.height →
        (∀ y i, y = 2 * r ∨ y = 2 * r + 1 →
          img.Pix[x + img.Stride * y]? = some i → (tab i).trans = true) →
        ∃ c c2, tb.cells[x + r * tb.width]? = some c ∧
          tb2.cells[x + r * tb.width]? = some c2 ∧
          c2.Fg = c.Fg ∧ c2.Bg = c.Bg ∧
          (2 * r < min tb.height (img.Dy * 2) → c2.Ch = lowerHalfBlock) ∧
          (¬ 2 * r < min tb.height (img.Dy * 2) → c2 = c)) := by
  refine ⟨?_, ?_, ?_, ?_⟩
  · intro x y i cs hp htr
    simp [renderFrameCell, index, hp, ha, htr, bind, Except.bind, pure, Except.pure]
  · intro tb2 h x y i hx hy hp htr
    obtain ⟨c, hc, hc2⟩ := renderFrame_cell g fn attribs tb tb2 img hg hcells h x y hx hy
    have hinfo : pixelInfo img fn attribs x y = some (tab i) := by
      simp [pixelInfo, hp, ha]
    rw [hc, hc2]
    simp [hinfo, paintWith, paintStd, htr]
  · intro x y i cs cs2 hp htr hs j
    obtain ⟨a, hpa, _, hget⟩ := renderFrameHiResCell_ok img fn attribs tb.width y x cs cs2 hs
    have hinfo : pixelInfo img fn attribs x y = some (tab i) := by
      simp [pixelInfo, hp, ha]
    rw [hinfo] at hpa
    cases hpa
    rw [hget j]
    simp [paintHiRes, htr]
  · intro tb2 h x r hx hr hall
    obtain ⟨c, c2, hc, hc2, h0, h0n, h1, h1n⟩ :=
      renderFrameHiRes_cell_fields g fn attribs tb tb2 img tab hg ha hcells h x r hx hr
    refine ⟨c, c2, hc, hc2, ?_, ?_, ?_, h0n⟩
    · by_cases hlt : 2 * r + 1 < min tb.height (img.Dy * 2)
      · obtain ⟨i, hi, hfg⟩ := h1 hlt
        rw [hfg, hall (2 * r + 1) i (Or.inr rfl) hi]
        rfl
      · exact h1n hlt
    · by_cases hlt : 2 * r < min tb.height (img.Dy * 2)
      · obtain ⟨i, hi, hbg, _⟩ := h0 hlt
        rw [hbg, hall (2 * r) i (Or.inl rfl) hi]
        rfl
      · rw [h0n hlt]
    · intro hlt
      obtain ⟨_, _, _, hch⟩ := h0 hlt
      exact hch

theorem transparent_pixel_effect_witness :
    ((GIF.mk [clearFrame]).Image[0]? = some clearFrame ∧
      [sampleTable][0]? = some sampleTable ∧
      (blankGrid 1 2).cells.length = (blankGrid 1 2).width * (blankGrid 1 2).height) ∧
    ((∀ x y i cs, clearFrame.Pix[x + clearFrame.Stride * y]? = some i → (sampleTable i).trans =
      true →
        renderFrameCell clearFrame 0 [sampleTable] (blankGrid 1 2).width y x cs = .ok cs) ∧
      (∀ tb2, renderFrame (GIF.mk [clearFrame]) 0 [sampleTable] (blankGrid 1 2) = .ok tb2 →
        ∀ x y i, x < (blankGrid 1 2).width → y < (blankGrid 1 2).height →
          clearFrame.Pix[x + clearFrame.Stride * y]? = some i → (sampleTable i).trans = true →
          tb2.cells[x + y * (blankGrid 1 2).width]? =
            (blankGrid 1 2).cells[x + y * (blankGrid 1 2).width]?) ∧
      (∀ x y i cs cs2, clearFrame.Pix[x + clearFrame.Stride * y]? = some i →
        (sampleTable i).trans = true →
        renderFrameHiResCell clearFrame 0 [sampleTable] (blankGrid 1 2).width y x cs = .ok cs2 →
        ∀ j, cs2[j]? = (cs[j]?).map (fun c =>
          if x + y / 2 * (blankGrid 1 2).width = j then { c with Ch := lowerHalfBlock } else c)) ∧
      (∀ tb2, renderFrameHiRes (GIF.mk [clearFrame]) 0 [sampleTable] (blankGrid 1 2) = .ok tb2 →
        ∀ x r, x < min (blankGrid 1 2).width clearFrame.Dx → r < (blankGrid 1 2).height →
          (∀ y i, y = 2 * r ∨ y = 2 * r + 1 →
            clearFrame.Pix[x + clearFrame.Stride * y]? = some i → (sampleTable i).trans = true) →
          ∃ c c2, (blankGrid 1 2).cells[x + r * (blankGrid 1 2).width]? = some c ∧
            tb2.cells[x + r * (blankGrid 1 2).width]? = some c2 ∧
            c2.Fg = c.Fg ∧ c2.Bg = c.Bg ∧
            (2 * r < min (blankGrid 1 2).height (clearFrame.Dy * 2) → c2.Ch = lowerHalfBlock) ∧
            (¬ 2 * r < min (blankGrid 1 2).height (clearFrame.Dy * 2) → c2 = c))) :=
  ⟨⟨rfl, rfl, rfl⟩,
    transparent_pixel_effect (GIF.mk [clearFrame]) 0 [sampleTable] (blankGrid 1 2)
      clearFrame sampleTable rfl rfl rfl⟩

/-- On a grid with more rows than the frame has pixel rows, and at least one
painted column, `renderFrameHiRes` stops on a pixel read out of range: its row
bound `min(theight, Dy*2)` exceeds `Dy`. -/
theorem renderFrameHiRes_faults_of_taller_grid (g : GIF) (fn : Nat)
    (attribs : List AttribTable) (tb : Termbox) (img : Paletted) (tab : AttribTable)
    (hg : g.Image[fn]? = some img) (ha : attribs[fn]? = some tab)
    (hcells : tb.cells.length = tb.width * tb.height)
    (hpix : img.Pix.length = img.Stride * img.Dy) (hW : 0 < tb.width) (hDx : 0 < img.Dx)
    (hDy : 0 < img.Dy) (hH : img.Dy < tb.height) :
    ∃ i, img.Pix.length ≤ i ∧ renderFrameHiRes g fn attribs tb = .error (Fault.pix i) := by
  cases h : renderFrameHiRes g fn attribs tb with
  | ok tb2 =>
    exfalso
    obtain ⟨_, _, _, hread, _⟩ := renderFrameHiRes_ok g fn attribs tb tb2 img hg h
    obtain ⟨a, hpa⟩ := hread 0 img.Dy ((lt_min_iff _ _ _).2 ⟨hW, hDx⟩)
      ((lt_min_iff _ _ _).2 ⟨hH, by omega⟩)
    obtain ⟨i, hi, _⟩ := pixelInfo_some img fn attribs 0 img.Dy a tab ha hpa
    rw [List.getElem?_eq_none (by omega)] at hi
    exact Option.noConfusion hi
  | error e =>
    rcases renderFrameHiRes_fault g fn attribs tb e hcells h with ⟨hn, _⟩ | ⟨img2, hg2, hf⟩
    · rw [hg] at hn
      exact Option.noConfusion hn
    · rw [hg] at hg2
      cases hg2
      rcases hf with ⟨x, y, _, _, hnone, he⟩ | ⟨hn, _⟩
      · refine ⟨x + img.Stride * y, ?_, by rw [he]⟩
        by_contra hlt
        rw [List.getElem?_eq_getElem (by omega)] at hnone
        exact Option.noConfusion hnone
      · rw [ha] at hn
        exact Option.noConfusion hn

/-- C3, the code at a failing input. A frame of height 4 (`k = 2`) on a grid of
2 rows: the row bound is `min(2, 4*2) = 2`, so both source rows 0 and 1 fall on
grid row 0 and grid row 1 stays untouched, where two rows per cell would touch
the `min(2, 2) = 2` rows 0 and 1. -/
theorem renderFrameHiRes_short_grid :
    tallFrame.WellFormed ∧
    renderFrameHiRes (GIF.mk [tallFrame]) 0 [sampleTable] (blankGrid 1 2)
      = .ok ⟨1, 2, [⟨lowerHalfBlock, 22, 197⟩, ⟨32, 0, 0⟩]⟩ :=
  ⟨by simp [Paletted.WellFormed, tallFrame, samplePalette], rfl⟩

/-- C4, the code at a failing input. A well-formed frame of one pixel on a grid
of 2 rows: the row bound is `min(2, 1*2) = 2`, and the read of source row 1,
`Pix[0 + 1*1]`, is outside the one-entry pixel buffer. -/
theorem renderFrameHiRes_tall_grid :
    dotFrame.WellFormed ∧
    renderFrameHiRes (GIF.mk [dotFrame]) 0 [sampleTable] (blankGrid 1 2)
      = .error (Fault.pix 1) :=
  ⟨by simp [Paletted.WellFormed, dotFrame, samplePalette], rfl⟩


/-! ## Transparency and the alpha range -/

theorem alpha8_eq_zero_iff (a : Nat) (h : a < 65536) : (a >>> 8) % 256 = 0 ↔ a < 256 := by
  simp only [Nat.shiftRight_eq_div_pow, Nat.reducePow]
  omega

theorem CMapMono_trans (c : Color) : (CMapMono c).trans = ((c.a >>> 8) % 256 == 0) := rfl

theorem CMapRGB_trans (c : Color) : (CMapRGB c).trans = ((c.a >>> 8) % 256 == 0) := rfl

/-- C11, counterexample. The 16-bit colour `RGBA64{0, 0, 0, 100}` has an alpha
strictly between 0 and the maximum 65535 of its range, and both mappers report
it transparent. -/
theorem alpha_positive_transparent :
    0 < (Color.ofRGBA64 0 0 0 100).a ∧ (Color.ofRGBA64 0 0 0 100).a < 65535 ∧
    (CMapMono (Color.ofRGBA64 0 0 0 100)).trans = true ∧
    (CMapRGB (Color.ofRGBA64 0 0 0 100)).trans = true :=
  ⟨by decide, by decide, rfl, rfl⟩

/-- C11, amended. For every colour, with `a` the 16-bit alpha its `RGBA()`
reports: both mappers return `trans = false` exactly when `a ≥ 256`, that is
when the alpha converted to 8 bits is not 0. Every 8-bit colour with alpha
`A > 0` is such a colour (it reports `A * 257`), so it is never transparent,
also when `A` is strictly below 255; a 16-bit alpha in `1..255` converts to 0
and is reported transparent. -/
theorem trans_false_iff (c : Color) (h : c.a < 65536) :
    ((CMapMono c).trans = false ↔ 256 ≤ c.a) ∧
    ((CMapRGB c).trans = false ↔ 256 ≤ c.a) ∧
    (∀ R G B A : Nat, 0 < A → A < 256 →
      (CMapMono (Color.ofRGBA ⟨R, G, B, A⟩)).trans = false ∧
      (CMapRGB (Color.ofRGBA ⟨R, G, B, A⟩)).trans = false) ∧
    (∀ R G B A : Nat, 256 ≤ A → A < 65536 →
      (CMapMono (Color.ofRGBA64 R G B A)).trans = false ∧
      (CMapRGB (Color.ofRGBA64 R G B A)).trans = false) := by
  have key : ∀ a : Nat, a < 65536 → (((a >>> 8) % 256 == 0) = false ↔ 256 ≤ a) := by
    intro a ha
    have := alpha8_eq_zero_iff a ha
    simp only [beq_eq_false_iff_ne, ne_eq]
    omega
  refine ⟨?_, ?_, ?_, ?_⟩
  · rw [CMapMono_trans]
    exact key c.a h
  · rw [CMapRGB_trans]
    exact key c.a h
  · intro R G B A hpos hlt
    have ha : (Color.ofRGBA ⟨R, G, B, A⟩).a = A * 257 := by
      simp [Color.ofRGBA, Nat.mod_eq_of_lt hlt]
    rw [CMapMono_trans, CMapRGB_trans, ha]
    exact ⟨(key _ (by omega)).2 (by omega), (key _ (by omega)).2 (by omega)⟩
  · intro R G B A hge hlt
    have ha : (Color.ofRGBA64 R G B A).a = A := by
      simp [Color.ofRGBA64, Nat.mod_eq_of_lt hlt]
    rw [CMapMono_trans, CMapRGB_trans, ha]
    exact ⟨(key _ hlt).2 hge, (key _ hlt).2 hge⟩

theorem trans_false_iff_witness :
    (Color.ofRGBA ⟨10, 20, 30, 128⟩).a < 65536 ∧
    (((CMapMono (Color.ofRGBA ⟨10, 20, 30, 128⟩)).trans = false ↔
        256 ≤ (Color.ofRGBA ⟨10, 20, 30, 128⟩).a) ∧
      ((CMapRGB (Color.ofRGBA ⟨10, 20, 30, 128⟩)).trans = false ↔
        256 ≤ (Color.ofRGBA ⟨10, 20, 30, 128⟩).a) ∧
      (∀ R G B A : Nat, 0 < A → A < 256 →
        (CMapMono (Color.ofRGBA ⟨R, G, B, A⟩)).trans = false ∧
        (CMapRGB (Color.ofRGBA ⟨R, G, B, A⟩)).trans = false) ∧
      (∀ R G B A : Nat, 256 ≤ A → A < 65536 →
        (CMapMono (Color.ofRGBA64 R G B A)).trans = false ∧
        (CMapRGB (Color.ofRGBA64 R G B A)).trans = false)) :=
  ⟨by decide, trans_false_iff (Color.ofRGBA ⟨10, 20, 30, 128⟩) (by decide)⟩

/-! ## The colour cube is injective on buckets -/

/-- C18. For every two colours, `CMapRGB` returns the same attribute if and only
if their bucket triples `(R*6/256, G*6/256, B*6/256)` are equal, and the triple
of a colour is recovered from its attribute `a` as
`((a - 17) / 36, ((a - 17) / 6) % 6, (a - 17) % 6)`. -/
theorem CMapRGB_injective_on_buckets (c1 c2 : Color) :
    ((CMapRGB c1).attr = (CMapRGB c2).attr ↔
      (RGBAModel.Convert c1).R * 6 / 256 = (RGBAModel.Convert c2).R * 6 / 256 ∧
      (RGBAModel.Convert c1).G * 6 / 256 = (RGBAModel.Convert c2).G * 6 / 256 ∧
      (RGBAModel.Convert c1).B * 6 / 256 = (RGBAModel.Convert c2).B * 6 / 256) ∧
    ((CMapRGB c1).attr - 17) / 36 = (RGBAModel.Convert c1).R * 6 / 256 ∧
    ((CMapRGB c1).attr - 17) / 6 % 6 = (RGBAModel.Convert c1).G * 6 / 256 ∧
    ((CMapRGB c1).attr - 17) % 6 = (RGBAModel.Convert c1).B * 6 / 256 := by
  have r1 := bucket_le _ (RGBAModel.Convert_R_lt c1)
  have g1 := bucket_le _ (RGBAModel.Convert_G_lt c1)
  have b1 := bucket_le _ (RGBAModel.Convert_B_lt c1)
  have r2 := bucket_le _ (RGBAModel.Convert_R_lt c2)
  have g2 := bucket_le _ (RGBAModel.Convert_G_lt c2)
  have b2 := bucket_le _ (RGBAModel.Convert_B_lt c2)
  rw [CMapRGB_attr c1, CMapRGB_attr c2]
  generalize (RGBAModel.Convert c1).R * 6 / 256 = x1 at *
  generalize (RGBAModel.Convert c1).G * 6 / 256 = y1 at *
  generalize (RGBAModel.Convert c1).B * 6 / 256 = z1 at *
  generalize (RGBAModel.Convert c2).R * 6 / 256 = x2 at *
  generalize (RGBAModel.Convert c2).G * 6 / 256 = y2 at *
  generalize (RGBAModel.Convert c2).B * 6 / 256 = z2 at *
  refine ⟨⟨fun h => ⟨by omega, by omega, by omega⟩, fun h => by omega⟩, by omega, by omega,
    by omega⟩

/-! ## Grey inputs -/

theorem gray_of_grey (v : Nat) (h : v < 256) :
    (GrayModel.Convert (Color.ofRGBA ⟨v, v, v, 255⟩)).Y = v := by
  simp only [GrayModel.Convert, Color.ofRGBA, Nat.shiftRight_eq_div_pow, Nat.reducePow,
    Nat.mod_eq_of_lt h]
  have h1 : 19595 * (v * 257) + 38470 * (v * 257) + 7471 * (v * 257) + 32768
      = 16842752 * v + 32768 := by omega
  have h2 : 16842752 * v + 32768 < 4294967296 := by omega
  have h3 : (16842752 * v + 32768) / 16777216 = v := by omega
  rw [h1, Nat.mod_eq_of_lt h2, h3, Nat.mod_eq_of_lt h]

/-- C20. For every opaque 8-bit grey colour (`R = G = B = v`, `A = 255`) the
luma of the grey conversion is exactly `v`, so `CMapMono` returns the attribute
`v / 11 + 1`; black gives 1 and white gives 24. -/
theorem grey_keeps_level (v : Nat) (h : v < 256) :
    (GrayModel.Convert (Color.ofRGBA ⟨v, v, v, 255⟩)).Y = v ∧
    (CMapMono (Color.ofRGBA ⟨v, v, v, 255⟩)).attr = v / 11 + 1 ∧
    (CMapMono (Color.ofRGBA ⟨0, 0, 0, 255⟩)).attr = 1 ∧
    (CMapMono (Color.ofRGBA ⟨255, 255, 255, 255⟩)).attr = 24 := by
  refine ⟨gray_of_grey v h, ?_, ?_, ?_⟩
  · rw [CMapMono_attr, gray_of_grey v h]
  · rw [CMapMono_attr, gray_of_grey 0 (by decide)]
  · rw [CMapMono_attr, gray_of_grey 255 (by decide)]

theorem grey_keeps_level_witness :
    128 < 256 ∧
    (GrayModel.Convert (Color.ofRGBA ⟨128, 128, 128, 255⟩)).Y = 128 ∧
    (CMapMono (Color.ofRGBA ⟨128, 128, 128, 255⟩)).attr = 128 / 11 + 1 ∧
    (CMapMono (Color.ofRGBA ⟨0, 0, 0, 255⟩)).attr = 1 ∧
    (CMapMono (Color.ofRGBA ⟨255, 255, 255, 255⟩)).attr = 24 :=
  ⟨by decide, grey_keeps_level 128 (by decide)⟩


/-! ## The callbacks -/

theorem advanceFrame_lt (N f : Nat) (hf : f < N) : advanceFrame N f < N := by
  unfold advanceFrame
  simp only
  split <;> omega

theorem advanceFrame_of_succ_lt (N f : Nat) (hf : f + 1 < N) : advanceFrame N f = f + 1 := by
  unfold advanceFrame
  simp only
  rw [if_neg (by omega)]

theorem advanceFrame_last (N : Nat) (hN : 1 ≤ N) : advanceFrame N (N - 1) = 0 := by
  unfold advanceFrame
  simp only
  rw [if_pos (by omega)]

/-- Below the frame count, `k` ticks from index 0 give index `k`. -/
theorem iterate_advanceFrame (N : Nat) :
    ∀ k, k < N → Nat.iterate (advanceFrame N) k 0 = k := by
  intro k
  induction k with
  | zero => intro _; rfl
  | succ k ih =>
    intro hk
    rw [Function.iterate_succ_apply', ih (by omega), advanceFrame_of_succ_lt N k hk]

theorem OnTick_ok (g : GIF) (attribs : List AttribTable) (f : Nat) (tb : Termbox)
    (r : Nat × Termbox) (h : OnTick g attribs f tb = .ok r) :
    r.1 = advanceFrame g.Image.length f ∧ renderFrameHiRes g f attribs tb = .ok r.2 := by
  unfold OnTick at h
  cases hr : renderFrameHiRes g f attribs tb with
  | error e => simp [hr, bind, Except.bind] at h
  | ok tb2 =>
    simp only [hr, bind, Except.bind, pure, Except.pure, Except.ok.injEq] at h
    subst h
    exact ⟨rfl, rfl⟩

/-- C14. For every frame count `N ≥ 1`, the frame index update of the tick
callback is increment-then-reset: from an index `f` with `f + 1 < N` it gives
`f + 1`, and from the last index `N - 1` it gives 0. So it keeps an index of
`[0, N)` in `[0, N)`; `k < N` updates from 0 give `k`, `N` updates from 0
return to 0, and `N + 1` updates from 0 give the same index as one update. The
index a returning `OnTick` leaves is this update of the index it was called
with. -/
theorem frame_index_loops (N : Nat) (hN : 1 ≤ N) :
    (∀ f, f + 1 < N → advanceFrame N f = f + 1) ∧
    advanceFrame N (N - 1) = 0 ∧
    (∀ f, f < N → advanceFrame N f < N) ∧
    (∀ k, k < N → Nat.iterate (advanceFrame N) k 0 = k) ∧
    Nat.iterate (advanceFrame N) N 0 = 0 ∧
    Nat.iterate (advanceFrame N) (N + 1) 0 = advanceFrame N 0 ∧
    (∀ (g : GIF) (attribs : List AttribTable) (f : Nat) (tb : Termbox) (r : Nat × Termbox),
      g.Image.length = N → OnTick g attribs f tb = .ok r → r.1 = advanceFrame N f) := by
  have hloop : Nat.iterate (advanceFrame N) N 0 = 0 := by
    obtain ⟨k, rfl⟩ : ∃ k, N = k + 1 := ⟨N - 1, by omega⟩
    rw [Function.iterate_succ_apply', iterate_advanceFrame (k + 1) k (by omega)]
    exact advanceFrame_last (k + 1) (by omega)
  refine ⟨advanceFrame_of_succ_lt N, advanceFrame_last N hN, advanceFrame_lt N,
    iterate_advanceFrame N, hloop, ?_, ?_⟩
  · rw [Function.iterate_succ_apply', hloop]
  · intro g attribs f tb r hlen h
    rw [← hlen]
    exact (OnTick_ok g attribs f tb r h).1

theorem frame_index_loops_witness :
    1 ≤ 3 ∧
    ((∀ f, f + 1 < 3 → advanceFrame 3 f = f + 1) ∧
      advanceFrame 3 (3 - 1) = 0 ∧
      (∀ f, f < 3 → advanceFrame 3 f < 3) ∧
      (∀ k, k < 3 → Nat.iterate (advanceFrame 3) k 0 = k) ∧
      Nat.iterate (advanceFrame 3) 3 0 = 0 ∧
      Nat.iterate (advanceFrame 3) (3 + 1) 0 = advanceFrame 3 0 ∧
      (∀ (g : GIF) (attribs : List AttribTable) (f : Nat) (tb : Termbox) (r : Nat × Termbox),
        g.Image.length = 3 → OnTick g attribs f tb = .ok r → r.1 = advanceFrame 3 f)) :=
  ⟨by decide, frame_index_loops 3 (by decide)⟩

/-- C15, the code at a failing input. `OnInit` returns no error exactly when
the terminal reports the grayscale mode after the request for the 256-colour
mode; on a terminal that reports the mode it was asked for, so that the
256-colour mode is active, `OnInit` returns the error. -/
theorem OnInit_compares_with_grayscale :
    (∀ t : OutputMode → OutputMode,
      OnInit t = .ok () ↔ t OutputMode.Output256 = OutputMode.OutputGrayscale) ∧
    (fun mode : OutputMode => mode) OutputMode.Output256 = OutputMode.Output256 ∧
    OnInit (fun mode => mode) = .error InitError.failedToSetOutputMode := by
  refine ⟨fun t => ?_, rfl, rfl⟩
  unfold OnInit
  by_cases h : t OutputMode.Output256 = OutputMode.OutputGrayscale <;> simp [h]


/-! ## The palette table builder -/

theorem mapColoursEntry_ok (g : GIF) (cmap : ColourMapFunc) (f : Nat) (img : Paletted)
    (tab : AttribTable) (i : Nat) (c : Color) (hg : g.Image[f]? = some img)
    (hc : img.Palette[i]? = some c) (hi : i < 256) :
    mapColoursEntry g cmap f tab i = .ok (Function.update tab ⟨i, hi⟩ (cmap c)) := by
  simp [mapColoursEntry, index, hg, hc, hi, bind, Except.bind, pure, Except.pure]

/-- The inner loop of `mapColours` over the first `n` palette entries. -/
theorem mapColours_palette_loop (g : GIF) (cmap : ColourMapFunc) (f : Nat) (img : Paletted)
    (hg : g.Image[f]? = some img) :
    ∀ n, n ≤ img.Palette.length → n ≤ 256 →
      ∃ tab, (List.range n).foldlM (fun tab i => mapColoursEntry g cmap f tab i) zeroTable
          = .ok tab ∧
        (∀ i (h : i < 256) (c : Color), i < n → img.Palette[i]? = some c →
          tab ⟨i, h⟩ = cmap c) ∧
        (∀ i (h : i < 256), n ≤ i → tab ⟨i, h⟩ = ⟨0, false⟩) := by
  intro n
  induction n with
  | zero =>
    intro _ _
    exact ⟨zeroTable, rfl, fun i h c hlt => absurd hlt (Nat.not_lt_zero i), fun _ _ _ => rfl⟩
  | succ n ih =>
    intro hlen h256
    obtain ⟨tab, hrun, hlow, hhigh⟩ := ih (by omega) (by omega)
    have hn : n < 256 := by omega
    have hc : img.Palette[n]? = some img.Palette[n] := List.getElem?_eq_getElem (by omega)
    refine ⟨Function.update tab ⟨n, hn⟩ (cmap img.Palette[n]), ?_, ?_, ?_⟩
    · rw [List.range_succ, List.foldlM_append, hrun]
      simp only [bind, Except.bind, List.foldlM_cons, List.foldlM_nil]
      rw [mapColoursEntry_ok g cmap f img tab n _ hg hc hn]
      rfl
    · intro i h c hlt hci
      by_cases hin : i = n
      · subst hin
        rw [hc] at hci
        cases hci
        simp
      · have hne : (⟨i, h⟩ : Fin 256) ≠ ⟨n, hn⟩ := fun he => hin (Fin.mk.inj he)
        rw [Function.update_noteq hne]
        exact hlow i h c (by omega) hci
    · intro i h hge
      have hne : (⟨i, h⟩ : Fin 256) ≠ ⟨n, hn⟩ := fun he => by
        have := Fin.mk.inj he
        omega
      rw [Function.update_noteq hne]
      exact hhigh i h (by omega)

theorem mapColoursFrame_ok (g : GIF) (cmap : ColourMapFunc) (attribs : List AttribTable)
    (f : Nat) (img : Paletted) (hg : g.Image[f]? = some img)
    (hpal : img.Palette.length ≤ 256) :
    ∃ tab, mapColoursFrame g cmap attribs f = .ok (attribs ++ [tab]) ∧
      (∀ i (h : i < 256) (c : Color), img.Palette[i]? = some c → tab ⟨i, h⟩ = cmap c) ∧
      (∀ i (h : i < 256), img.Palette.length ≤ i → tab ⟨i, h⟩ = ⟨0, false⟩) := by
  obtain ⟨tab, hrun, hlow, hhigh⟩ :=
    mapColours_palette_loop g cmap f img hg img.Palette.length (Nat.le_refl _) hpal
  refine ⟨tab, ?_, ?_, hhigh⟩
  · simp [mapColoursFrame, index, hg, hrun, bind, Except.bind, pure, Except.pure]
  · intro i h c hc
    have hlt : i < img.Palette.length := by
      by_contra hge
      rw [List.getElem?_eq_none (by omega)] at hc
      exact Option.noConfusion hc
    exact hlow i h c hlt hc

/-- The outer loop of `mapColours` over the first `n` frames. -/
theorem mapColours_frame_loop (g : GIF) (cmap : ColourMapFunc)
    (hpal : ∀ img ∈ g.Image, img.Palette.length ≤ 256) :
    ∀ n, n ≤ g.Image.length →
      ∃ tabs, (List.range n).foldlM (fun attribs f => mapColoursFrame g cmap attribs f) []
          = .ok tabs ∧ tabs.length = n ∧
        ∀ (f : Nat) (img : Paletted), f < n → g.Image[f]? = some img →
          ∃ tab : AttribTable, tabs[f]? = some tab ∧
            (∀ i (h : i < 256) (c : Color), img.Palette[i]? = some c → tab ⟨i, h⟩ = cmap c) ∧
            (∀ i (h : i < 256), img.Palette.length ≤ i → tab ⟨i, h⟩ = ⟨0, false⟩) := by
  intro n
  induction n with
  | zero =>
    intro _
    exact ⟨[], rfl, rfl, fun f _ hlt => absurd hlt (Nat.not_lt_zero f)⟩
  | succ n ih =>
    intro hlen
    obtain ⟨tabs, hrun, hlenT, hprev⟩ := ih (by omega)
    have hgn : g.Image[n]? = some g.Image[n] := List.getElem?_eq_getElem (by omega)
    obtain ⟨tab, hframe, hlow, hhigh⟩ := mapColoursFrame_ok g cmap tabs n g.Image[n] hgn
      (hpal _ (List.getElem_mem _))
    refine ⟨tabs ++ [tab], ?_, by simp [hlenT], ?_⟩
    · rw [List.range_succ, List.foldlM_append, hrun]
      simp only [bind, Except.bind, List.foldlM_cons, List.foldlM_nil]
      rw [hframe]
      rfl
    · intro f img hf hgf
      by_cases hfn : f = n
      · subst hfn
        rw [hgn] at hgf
        cases hgf
        refine ⟨tab, ?_, hlow, hhigh⟩
        rw [List.getElem?_append_right (by omega), hlenT]
        simp
      · obtain ⟨tab0, ht0, hl0, hh0⟩ := hprev f img (by omega) hgf
        refine ⟨tab0, ?_, hl0, hh0⟩
        rw [List.getElem?_append_left (by omega)]
        exact ht0

/-- When every palette has at most 256 entries `mapColours` returns, with one
table per frame: entry `i` of table `f` is the mapped colour `i` of the palette
of frame `f`, and zero from the palette length on. -/
theorem mapColours_ok (g : GIF) (cmap : ColourMapFunc)
    (hpal : ∀ img ∈ g.Image, img.Palette.length ≤ 256) :
    ∃ tabs, mapColours g cmap = .ok tabs ∧ tabs.length = g.Image.length ∧
      ∀ (f : Nat) (img : Paletted), g.Image[f]? = some img →
        ∃ tab : AttribTable, tabs[f]? = some tab ∧
          (∀ i (h : i < 256) (c : Color), img.Palette[i]? = some c → tab ⟨i, h⟩ = cmap c) ∧
          (∀ i (h : i < 256), img.Palette.length ≤ i → tab ⟨i, h⟩ = ⟨0, false⟩) := by
  obtain ⟨tabs, hrun, hlen, hall⟩ :=
    mapColours_frame_loop g cmap hpal g.Image.length (Nat.le_refl _)
  refine ⟨tabs, hrun, hlen, fun f img hgf => hall f img ?_ hgf⟩
  by_contra hge
  rw [List.getElem?_eq_none (by omega)] at hgf
  exact Option.noConfusion hgf

/-- A table is determined by the palette it was built from. -/
theorem table_unique (cmap : ColourMapFunc) (pal : List Color) (t1 t2 : AttribTable)
    (h1 : ∀ i (h : i < 256) (c : Color), pal[i]? = some c → t1 ⟨i, h⟩ = cmap c)
    (z1 : ∀ i (h : i < 256), pal.length ≤ i → t1 ⟨i, h⟩ = ⟨0, false⟩)
    (h2 : ∀ i (h : i < 256) (c : Color), pal[i]? = some c → t2 ⟨i, h⟩ = cmap c)
    (z2 : ∀ i (h : i < 256), pal.length ≤ i → t2 ⟨i, h⟩ = ⟨0, false⟩) : t1 = t2 := by
  funext ⟨i, h⟩
  by_cases hi : i < pal.length
  · rw [h1 i h _ (List.getElem?_eq_getElem hi), h2 i h _ (List.getElem?_eq_getElem hi)]
  · rw [z1 i h (by omega), z2 i h (by omega)]


/-- C12. For every frame sequence whose palettes have at most 256 entries and
every mapper, `mapColours` returns a sequence of tables of the same length and
order as the frames: entry `i` of table `f` is the mapper applied to colour `i`
of the palette of frame `f` for every `i` below the palette length, and the
zero entry (attribute 0, not transparent) from the palette length on. Table `f`
depends on the palette of frame `f` only: a frame with the same palette, at any
position of any frame sequence, gets the same table. -/
theorem mapColours_tables (g : GIF) (cmap : ColourMapFunc)
    (hpal : ∀ img ∈ g.Image, img.Palette.length ≤ 256) :
    ∃ tabs, mapColours g cmap = .ok tabs ∧ tabs.length = g.Image.length ∧
      (∀ (f : Nat) (img : Paletted), g.Image[f]? = some img →
        ∃ tab : AttribTable, tabs[f]? = some tab ∧
          (∀ i (h : i < 256) (c : Color), img.Palette[i]? = some c → tab ⟨i, h⟩ = cmap c) ∧
          (∀ i (h : i < 256), img.Palette.length ≤ i → tab ⟨i, h⟩ = ⟨0, false⟩)) ∧
      (∀ (g2 : GIF) (f f2 : Nat) (img img2 : Paletted),
        (∀ im ∈ g2.Image, im.Palette.length ≤ 256) →
        g.Image[f]? = some img → g2.Image[f2]? = some img2 → img2.Palette = img.Palette →
        ∃ tabs2, mapColours g2 cmap = .ok tabs2 ∧ tabs2[f2]? = tabs[f]?) := by
  obtain ⟨tabs, hrun, hlen, hall⟩ := mapColours_ok g cmap hpal
  refine ⟨tabs, hrun, hlen, hall, ?_⟩
  intro g2 f f2 img img2 hpal2 hgf hgf2 hsame
  obtain ⟨tabs2, hrun2, _, hall2⟩ := mapColours_ok g2 cmap hpal2
  obtain ⟨t1, ht1, hl1, hz1⟩ := hall f img hgf
  obtain ⟨t2, ht2, hl2, hz2⟩ := hall2 f2 img2 hgf2
  refine ⟨tabs2, hrun2, ?_⟩
  rw [ht1, ht2]
  rw [hsame] at hl2 hz2
  rw [table_unique cmap img.Palette t2 t1 hl2 hz2 hl1 hz1]

theorem mapColours_tables_witness :
    (∀ img ∈ (GIF.mk [sampleFrame, scenarioFrame]).Image, img.Palette.length ≤ 256) ∧
    ∃ tabs, mapColours (GIF.mk [sampleFrame, scenarioFrame]) CMapRGB = .ok tabs ∧
      tabs.length = (GIF.mk [sampleFrame, scenarioFrame]).Image.length ∧
      (∀ (f : Nat) (img : Paletted),
        (GIF.mk [sampleFrame, scenarioFrame]).Image[f]? = some img →
        ∃ tab : AttribTable, tabs[f]? = some tab ∧
          (∀ i (h : i < 256) (c : Color), img.Palette[i]? = some c →
            tab ⟨i, h⟩ = CMapRGB c) ∧
          (∀ i (h : i < 256), img.Palette.length ≤ i → tab ⟨i, h⟩ = ⟨0, false⟩)) ∧
      (∀ (g2 : GIF) (f f2 : Nat) (img img2 : Paletted),
        (∀ im ∈ g2.Image, im.Palette.length ≤ 256) →
        (GIF.mk [sampleFrame, scenarioFrame]).Image[f]? = some img →
        g2.Image[f2]? = some img2 → img2.Palette = img.Palette →
        ∃ tabs2, mapColours g2 CMapRGB = .ok tabs2 ∧ tabs2[f2]? = tabs[f]?) :=
  ⟨by simp [sampleFrame, scenarioFrame, samplePalette],
    mapColours_tables (GIF.mk [sampleFrame, scenarioFrame]) CMapRGB
      (by simp [sampleFrame, scenarioFrame, samplePalette])⟩

/-- C13. The single 2 × 2 frame (stride 2) with palette
`[{255,0,0,255}, {0,0,0,0}]` and pixel buffer `[0,1,1,0]`: `CMapRGB` maps the
red entry to attribute `197 = 17 + 5*36`, opaque, and the other entry to a
transparent one; `mapColours` returns the table sequence, and `renderFrame`
with it into any 2 × 2 grid returns the grid whose top-left and bottom-right
cells have foreground = background = 197 and whose top-right and bottom-left
cells are the cells it had before. -/
theorem scenario_red_diagonal :
    CMapRGB (Color.ofRGBA ⟨255, 0, 0, 255⟩) = ⟨197, false⟩ ∧
    197 = 17 + (5 * 36 + 0 * 6 + 0) ∧
    (CMapRGB (Color.ofRGBA ⟨0, 0, 0, 0⟩)).trans = true ∧
    ∃ tabs, mapColours scenarioGIF CMapRGB = .ok tabs ∧
      ∀ c0 c1 c2 c3 : Cell,
        renderFrame scenarioGIF 0 tabs ⟨2, 2, [c0, c1, c2, c3]⟩
          = .ok ⟨2, 2, [⟨c0.Ch, 197, 197⟩, c1, c2, ⟨c3.Ch, 197, 197⟩]⟩ :=
  ⟨rfl, rfl, rfl, _, rfl, fun _ _ _ _ => rfl⟩


/-! ## Glyphs and shape under the standard renderer -/

theorem renderFrame_image_of_ok (g : GIF) (fn : Nat) (attribs : List AttribTable)
    (tb tb2 : Termbox) (h : renderFrame g fn attribs tb = .ok tb2) :
    ∃ img, g.Image[fn]? = some img := by
  cases hg : g.Image[fn]? with
  | some img => exact ⟨img, rfl⟩
  | none => simp [renderFrame, index, hg, bind, Except.bind] at h

theorem renderFrameHiRes_image_of_ok (g : GIF) (fn : Nat) (attribs : List AttribTable)
    (tb tb2 : Termbox) (h : renderFrameHiRes g fn attribs tb = .ok tb2) :
    ∃ img, g.Image[fn]? = some img := by
  cases hg : g.Image[fn]? with
  | some img => exact ⟨img, rfl⟩
  | none => simp [renderFrameHiRes, index, hg, bind, Except.bind] at h

theorem paintStd_Ch (a : AttribInfo) (c : Cell) : (paintStd a c).Ch = c.Ch := by
  unfold paintStd
  split <;> rfl

/-- An iteration of `renderFrame` keeps every glyph. -/
theorem renderFrameCell_Ch (img : Paletted) (fn : Nat) (attribs : List AttribTable)
    (W y x : Nat) (cells cells2 : List Cell)
    (h : renderFrameCell img fn attribs W y x cells = .ok cells2) (j : Nat) :
    (cells2[j]?).map Cell.Ch = (cells[j]?).map Cell.Ch := by
  obtain ⟨a, _, _, hget⟩ := renderFrameCell_ok img fn attribs W y x cells cells2 h
  rw [hget j, Option.map_map]
  cases cells[j]? with
  | none => rfl
  | some c =>
    simp only [Option.map_some', Function.comp_apply, Option.some.injEq]
    split
    · exact paintStd_Ch a c
    · rfl

/-- C19. After a returning `renderFrame` the grid has the width, the height and
the cell-buffer length it had before, and every cell has its pre-call glyph:
only foreground and background attributes can differ. -/
theorem renderFrame_keeps_glyphs (g : GIF) (fn : Nat) (attribs : List AttribTable)
    (tb tb2 : Termbox) (h : renderFrame g fn attribs tb = .ok tb2) :
    tb2.width = tb.width ∧ tb2.height = tb.height ∧
    tb2.cells.length = tb.cells.length ∧
    ∀ j : Nat, (tb2.cells[j]?).map Cell.Ch = (tb.cells[j]?).map Cell.Ch := by
  obtain ⟨img, hg⟩ := renderFrame_image_of_ok g fn attribs tb tb2 h
  obtain ⟨hw, hh, hl⟩ := renderFrame_loops g fn attribs tb tb2 img hg h
  have hinv := (foldlM_invariant
    (fun cells y => renderFrameRow img fn attribs tb.width (min tb.width img.Dx) y cells)
    (fun cs => cs.length = tb.cells.length ∧
      ∀ j : Nat, (cs[j]?).map Cell.Ch = (tb.cells[j]?).map Cell.Ch)
    (fun _ => True) _ tb.cells ?_ ⟨rfl, fun _ => rfl⟩).1 tb2.cells hl
  · exact ⟨hw, hh, hinv.1, hinv.2⟩
  · intro y _ cs hcs
    refine foldlM_invariant
      (fun cells x => renderFrameCell img fn attribs tb.width y x cells)
      (fun cs => cs.length = tb.cells.length ∧
        ∀ j : Nat, (cs[j]?).map Cell.Ch = (tb.cells[j]?).map Cell.Ch)
      (fun _ => True) _ cs ?_ hcs
    intro x _ cs1 hcs1
    refine ⟨fun cs2 hs => ?_, fun _ _ => trivial⟩
    obtain ⟨_, _, hlen, _⟩ := renderFrameCell_ok img fn attribs tb.width y x cs1 cs2 hs
    exact ⟨hlen.trans hcs1.1, fun j =>
      (renderFrameCell_Ch img fn attribs tb.width y x cs1 cs2 hs j).trans (hcs1.2 j)⟩

theorem renderFrame_keeps_glyphs_witness :
    renderFrame (GIF.mk [sampleFrame]) 0 [sampleTable] (blankGrid 2 3)
      = .ok ⟨2, 3, [⟨32, 197, 197⟩, ⟨32, 0, 0⟩, ⟨32, 0, 0⟩, ⟨32, 22, 22⟩, ⟨32, 0, 0⟩,
          ⟨32, 0, 0⟩]⟩ ∧
    (2 = (blankGrid 2 3).width ∧ 3 = (blankGrid 2 3).height ∧
      [(⟨32, 197, 197⟩ : Cell), ⟨32, 0, 0⟩, ⟨32, 0, 0⟩, ⟨32, 22, 22⟩, ⟨32, 0, 0⟩,
          ⟨32, 0, 0⟩].length = (blankGrid 2 3).cells.length ∧
      ∀ j : Nat, ([(⟨32, 197, 197⟩ : Cell), ⟨32, 0, 0⟩, ⟨32, 0, 0⟩, ⟨32, 22, 22⟩, ⟨32, 0, 0⟩,
          ⟨32, 0, 0⟩][j]?).map Cell.Ch = ((blankGrid 2 3).cells[j]?).map Cell.Ch) :=
  ⟨rfl, renderFrame_keeps_glyphs (GIF.mk [sampleFrame]) 0 [sampleTable] (blankGrid 2 3)
    ⟨2, 3, [⟨32, 197, 197⟩, ⟨32, 0, 0⟩, ⟨32, 0, 0⟩, ⟨32, 22, 22⟩, ⟨32, 0, 0⟩, ⟨32, 0, 0⟩]⟩
    rfl⟩


/-! ## The tick callback and the frame count -/

theorem foldlM_pure_step {α : Type} (step : List Cell → α → Except Fault (List Cell))
    (hstep : ∀ cs a, step cs a = .ok cs) :
    ∀ (l : List α) (cells : List Cell), l.foldlM step cells = .ok cells := by
  intro l
  induction l with
  | nil => intro cells; rfl
  | cons a l ih =>
    intro cells
    rw [List.foldlM_cons, hstep cells a]
    exact ih cells

/-- With a computed width or height of 0 `renderFrame` returns the grid as it
is. -/
theorem renderFrame_zero (g : GIF) (fn : Nat) (attribs : List AttribTable) (tb : Termbox)
    (img : Paletted) (hg : g.Image[fn]? = some img)
    (hzero : min tb.width img.Dx = 0 ∨ min tb.height img.Dy = 0) :
    renderFrame g fn attribs tb = .ok tb := by
  have hfold : (List.range (min tb.height img.Dy)).foldlM
      (fun cells y =>
        renderFrameRow img fn attribs tb.width (min tb.width img.Dx) y cells) tb.cells
      = .ok tb.cells := by
    rcases hzero with h0 | h0
    · rw [h0]
      exact foldlM_pure_step _ (fun cs y => rfl) _ _
    · rw [h0]
      rfl
  simp [renderFrame, index, hg, hfold, bind, Except.bind, pure, Except.pure]

/-- With a computed width or row bound of 0 `renderFrameHiRes` returns the grid
as it is. -/
theorem renderFrameHiRes_zero (g : GIF) (fn : Nat) (attribs : List AttribTable)
    (tb : Termbox) (img : Paletted) (hg : g.Image[fn]? = some img)
    (hzero : min tb.width img.Dx = 0 ∨ min tb.height (img.Dy * 2) = 0) :
    renderFrameHiRes g fn attribs tb = .ok tb := by
  have hfold : (List.range (min tb.height (img.Dy * 2))).foldlM
      (fun cells y =>
        renderFrameHiResRow img fn attribs tb.width (min tb.width img.Dx) y cells) tb.cells
      = .ok tb.cells := by
    rcases hzero with h0 | h0
    · rw [h0]
      exact foldlM_pure_step _ (fun cs y => rfl) _ _
    · rw [h0]
      rfl
  simp [renderFrameHiRes, index, hg, hfold, bind, Except.bind, pure, Except.pure]

theorem pixelInfo_attribs (img : Paletted) (fn : Nat) (attribs : List AttribTable)
    (x y : Nat) (a : AttribInfo) (h : pixelInfo img fn attribs x y = some a) :
    (∃ i, img.Pix[x + img.Stride * y]? = some i) ∧ ∃ tab, attribs[fn]? = some tab := by
  unfold pixelInfo at h
  cases hp : img.Pix[x + img.Stride * y]? with
  | none => simp [hp] at h
  | some i =>
    cases ht : attribs[fn]? with
    | none => simp [hp, ht] at h
    | some tab => exact ⟨⟨i, rfl⟩, ⟨tab, rfl⟩⟩

theorem paintStd_idem (p : Option AttribInfo) (c : Cell) :
    paintWith paintStd p (paintWith paintStd p c) = paintWith paintStd p c := by
  cases p with
  | none => rfl
  | some a =>
    simp only [paintWith, paintStd]
    cases a.trans <;> simp

theorem paintHiRes_even_idem (r : Nat) (p : Option AttribInfo) (c : Cell) :
    paintWith (paintHiRes (2 * r)) p (paintWith (paintHiRes (2 * r)) p c)
      = paintWith (paintHiRes (2 * r)) p c := by
  cases p with
  | none => rfl
  | some a =>
    simp only [paintWith, paintHiRes_even]
    cases a.trans <;> simp

theorem paintHiRes_pair_idem (r : Nat) (p0 p1 : Option AttribInfo) (c : Cell) :
    paintWith (paintHiRes (2 * r + 1)) p1 (paintWith (paintHiRes (2 * r)) p0
        (paintWith (paintHiRes (2 * r + 1)) p1 (paintWith (paintHiRes (2 * r)) p0 c)))
      = paintWith (paintHiRes (2 * r + 1)) p1 (paintWith (paintHiRes (2 * r)) p0 c) := by
  cases p0 with
  | none =>
    cases p1 with
    | none => rfl
    | some a1 =>
      simp only [paintWith, paintHiRes_odd]
      cases a1.trans <;> simp
  | some a0 =>
    cases p1 with
    | none =>
      simp only [paintWith, paintHiRes_even]
      cases a0.trans <;> simp
    | some a1 =>
      simp only [paintWith, paintHiRes_even, paintHiRes_odd]
      cases a0.trans <;> cases a1.trans <;> simp


/-- A second `renderFrame` with the same arguments on the grid the first one
returned returns as well. -/
theorem renderFrame_rerun (g : GIF) (fn : Nat) (attribs : List AttribTable) (tb tb2 : Termbox)
    (img : Paletted) (hg : g.Image[fn]? = some img)
    (hcells : tb.cells.length = tb.width * tb.height)
    (h : renderFrame g fn attribs tb = .ok tb2) :
    ∃ tb3, renderFrame g fn attribs tb2 = .ok tb3 := by
  obtain ⟨hw, hh, hlen, hread, _⟩ := renderFrame_ok g fn attribs tb tb2 img hg h
  have hcells2 : tb2.cells.length = tb2.width * tb2.height := by
    rw [hlen, hw, hh]
    exact hcells
  cases h2 : renderFrame g fn attribs tb2 with
  | ok tb3 => exact ⟨tb3, rfl⟩
  | error e =>
    exfalso
    rcases renderFrame_fault g fn attribs tb2 e hcells2 h2 with ⟨hn, _⟩ | ⟨img2, hg2, hf⟩
    · rw [hg] at hn
      exact Option.noConfusion hn
    · rw [hg] at hg2
      cases hg2
      rw [hw, hh] at hf
      rcases hf with ⟨x, y, hx, hy, hnone, _⟩ | ⟨hnone, _⟩
      · obtain ⟨a, ha⟩ := hread x y hx hy
        obtain ⟨⟨i, hi⟩, _⟩ := pixelInfo_attribs img fn attribs x y a ha
        rw [hi] at hnone
        exact Option.noConfusion hnone
      · by_cases hz : min tb.width img.Dx = 0 ∨ min tb.height img.Dy = 0
        · rw [← hw, ← hh] at hz
          rw [renderFrame_zero g fn attribs tb2 img hg hz] at h2
          exact Except.noConfusion h2
        · obtain ⟨a, ha⟩ := hread 0 0 (by omega) (by omega)
          obtain ⟨_, tab, htab⟩ := pixelInfo_attribs img fn attribs 0 0 a ha
          rw [htab] at hnone
          exact Option.noConfusion hnone

/-- A second `renderFrameHiRes` with the same arguments on the grid the first
one returned returns as well. -/
theorem renderFrameHiRes_rerun (g : GIF) (fn : Nat) (attribs : List AttribTable)
    (tb tb2 : Termbox) (img : Paletted) (hg : g.Image[fn]? = some img)
    (hcells : tb.cells.length = tb.width * tb.height)
    (h : renderFrameHiRes g fn attribs tb = .ok tb2) :
    ∃ tb3, renderFrameHiRes g fn attribs tb2 = .ok tb3 := by
  obtain ⟨hw, hh, hlen, hread, _⟩ := renderFrameHiRes_ok g fn attribs tb tb2 img hg h
  have hcells2 : tb2.cells.length = tb2.width * tb2.height := by
    rw [hlen, hw, hh]
    exact hcells
  cases h2 : renderFrameHiRes g fn attribs tb2 with
  | ok tb3 => exact ⟨tb3, rfl⟩
  | error e =>
    exfalso
    rcases renderFrameHiRes_fault g fn attribs tb2 e hcells2 h2 with
      ⟨hn, _⟩ | ⟨img2, hg2, hf⟩
    · rw [hg] at hn
      exact Option.noConfusion hn
    · rw [hg] at hg2
      cases hg2
      rw [hw, hh] at hf
      rcases hf with ⟨x, y, hx, hy, hnone, _⟩ | ⟨hnone, _⟩
      · obtain ⟨a, ha⟩ := hread x y hx hy
        obtain ⟨⟨i, hi⟩, _⟩ := pixelInfo_attribs img fn attribs x y a ha
        rw [hi] at hnone
        exact Option.noConfusion hnone
      · by_cases hz : min tb.width img.Dx = 0 ∨ min tb.height (img.Dy * 2) = 0
        · rw [← hw, ← hh] at hz
          rw [renderFrameHiRes_zero g fn attribs tb2 img hg hz] at h2
          exact Except.noConfusion h2
        · obtain ⟨a, ha⟩ := hread 0 0 (by omega) (by omega)
          obtain ⟨_, tab, htab⟩ := pixelInfo_attribs img fn attribs 0 0 a ha
          rw [htab] at hnone
          exact Option.noConfusion hnone

theorem Termbox.eq_of_fields (t1 t2 : Termbox) (hw : t1.width = t2.width)
    (hh : t1.height = t2.height) (hc : t1.cells = t2.cells) : t1 = t2 := by
  obtain ⟨w1, h1, c1⟩ := t1
  obtain ⟨w2, h2, c2⟩ := t2
  simp only at hw hh hc
  subst hw hh hc
  rfl

/-- C17. For every `W × H` grid, frame and attribute table on which the renderer
returns, calling `renderFrame` again with the same arguments on the grid it
returned returns that same grid; and the same holds for
`renderFrameHiRes`. -/
theorem render_idempotent (g : GIF) (fn : Nat) (attribs : List AttribTable) (tb : Termbox)
    (hcells : tb.cells.length = tb.width * tb.height) :
    (∀ tb2, renderFrame g fn attribs tb = .ok tb2 →
      renderFrame g fn attribs tb2 = .ok tb2) ∧
    (∀ tb2, renderFrameHiRes g fn attribs tb = .ok tb2 →
      renderFrameHiRes g fn attribs tb2 = .ok tb2) := by
  constructor
  · intro tb2 h
    obtain ⟨img, hg⟩ := renderFrame_image_of_ok g fn attribs tb tb2 h
    obtain ⟨tb3, h2⟩ := renderFrame_rerun g fn attribs tb tb2 img hg hcells h
    obtain ⟨hw, hh, hlen, _, _⟩ := renderFrame_ok g fn attribs tb tb2 img hg h
    obtain ⟨hw2, hh2, hlen2, _, _⟩ := renderFrame_ok g fn attribs tb2 tb3 img hg h2
    have hcells2 : tb2.cells.length = tb2.width * tb2.height := by
      rw [hlen, hw, hh]
      exact hcells
    rw [h2]
    congr 1
    refine Termbox.eq_of_fields tb3 tb2 hw2 hh2 ?_
    refine cells_ext tb.width tb.height _ _ (by rw [hlen2, hlen, hcells])
      (by rw [hlen, hcells]) ?_
    intro x y hx hy
    obtain ⟨c, hc, hc2⟩ := renderFrame_cell g fn attribs tb tb2 img hg hcells h x y hx hy
    obtain ⟨d, hd, hd2⟩ := renderFrame_cell g fn attribs tb2 tb3 img hg hcells2 h2 x y
      (by omega) (by omega)
    rw [hw] at hd
    rw [hw, hh] at hd2
    rw [hc2] at hd
    cases hd
    rw [hd2, hc2]
    split
    · rw [paintStd_idem]
    · rfl
  · intro tb2 h
    obtain ⟨img, hg⟩ := renderFrameHiRes_image_of_ok g fn attribs tb tb2 h
    obtain ⟨tb3, h2⟩ := renderFrameHiRes_rerun g fn attribs tb tb2 img hg hcells h
    obtain ⟨hw, hh, hlen, _, _⟩ := renderFrameHiRes_ok g fn attribs tb tb2 img hg h
    obtain ⟨hw2, hh2, hlen2, _, _⟩ := renderFrameHiRes_ok g fn attribs tb2 tb3 img hg h2
    have hcells2 : tb2.cells.length = tb2.width * tb2.height := by
      rw [hlen, hw, hh]
      exact hcells
    rw [h2]
    congr 1
    refine Termbox.eq_of_fields tb3 tb2 hw2 hh2 ?_
    refine cells_ext tb.width tb.height _ _ (by rw [hlen2, hlen, hcells])
      (by rw [hlen, hcells]) ?_
    intro x y hx hy
    obtain ⟨c, hc, hc2⟩ :=
      renderFrameHiRes_cell g fn attribs tb tb2 img hg hcells h x y hx hy
    obtain ⟨d, hd, hd2⟩ := renderFrameHiRes_cell g fn attribs tb2 tb3 img hg hcells2 h2 x y
      (by omega) (by omega)
    rw [hw] at hd
    rw [hw, hh] at hd2
    rw [hc2] at hd
    cases hd
    rw [hd2, hc2]
    split
    · rw [paintHiRes_pair_idem]
    · split
      · rw [paintHiRes_even_idem]
      · rfl

theorem render_idempotent_witness :
    (blankGrid 2 2).cells.length = (blankGrid 2 2).width * (blankGrid 2 2).height ∧
    ((∀ tb2, renderFrame (GIF.mk [sampleFrame]) 0 [sampleTable] (blankGrid 2 2) = .ok tb2 →
        renderFrame (GIF.mk [sampleFrame]) 0 [sampleTable] tb2 = .ok tb2) ∧
      (∀ tb2,
        renderFrameHiRes (GIF.mk [sampleFrame]) 0 [sampleTable] (blankGrid 2 2) = .ok tb2 →
        renderFrameHiRes (GIF.mk [sampleFrame]) 0 [sampleTable] tb2 = .ok tb2)) ∧
    renderFrame (GIF.mk [sampleFrame]) 0 [sampleTable]
        ⟨2, 2, [⟨32, 197, 197⟩, ⟨32, 0, 0⟩, ⟨32, 0, 0⟩, ⟨32, 22, 22⟩]⟩
      = .ok ⟨2, 2, [⟨32, 197, 197⟩, ⟨32, 0, 0⟩, ⟨32, 0, 0⟩, ⟨32, 22, 22⟩]⟩ ∧
    renderFrameHiRes (GIF.mk [sampleFrame]) 0 [sampleTable]
        ⟨2, 2, [⟨lowerHalfBlock, 0, 197⟩, ⟨lowerHalfBlock, 22, 0⟩, ⟨32, 0, 0⟩, ⟨32, 0, 0⟩]⟩
      = .ok ⟨2, 2,
          [⟨lowerHalfBlock, 0, 197⟩, ⟨lowerHalfBlock, 22, 0⟩, ⟨32, 0, 0⟩, ⟨32, 0, 0⟩]⟩ :=
  ⟨rfl, render_idempotent (GIF.mk [sampleFrame]) 0 [sampleTable] (blankGrid 2 2) rfl,
    (render_idempotent (GIF.mk [sampleFrame]) 0 [sampleTable] (blankGrid 2 2) rfl).1 _ rfl,
    (render_idempotent (GIF.mk [sampleFrame]) 0 [sampleTable] (blankGrid 2 2) rfl).2 _ rfl⟩


end Gogif
